import Mathlib

/-!
Verification development for the aiida-jutools repository.

This file gives a shallow embedding, in Lean 4, of the parts of the
repository that the checked properties are about:

* `aiida_jutools/util_kkr.py`: the KKR constants version classifier
  (`KkrConstantsVersionChecker.check_single_workchain`), including the
  reverse computation of the `ANG_BOHR_KKR` constant and the per-workchain
  result table.
* `aiida_jutools/util_data.py`: the conversion-settings resolution inside
  `CifImporter.load_or_convert`.
* `aiida_jutools/computer/options.py`: the `_OptionsConfig` load-or-create
  subsystem (`initialize` step 2 and `get_options`).

Numbers that are floats in the source are modelled as exact rationals; the
external AiiDA object store is modelled as explicit lists of nodes threaded
through the functions; exceptions are modelled with `Except`.
-/

namespace AiidaJutools

/-- Python `abs` on rationals. -/
def pyAbs (q : ℚ) : ℚ := if q < 0 then -q else q

/-- Python `min` of a list of rationals; `min` of the empty list is an error in
Python, modelled here as `0` (all uses in the source are on nonempty lists). -/
def pyMinQ : List ℚ → ℚ
  | [] => 0
  | [x] => x
  | x :: y :: t => min x (pyMinQ (y :: t))

/-! ## KKR constants version classification (util_kkr.py) -/

/-- The enum `KkrConstantsVersion` from `util_kkr.py`. -/
inductive KkrConstantsVersion
  | NEW
  | OLD
  | INTERIM
  | NEITHER
  | UNDECISIVE
deriving DecidableEq, Repr

/-- Literal value `1.8897261246257702` assigned to `KkrConstantsVersion.NEW`
in `KkrConstantsVersionChecker.__init__`. -/
def ANG_BOHR_KKR_NEW : ℚ := 18897261246257702 / 10 ^ 16

/-- Literal value `1.8897261249935897` assigned to `KkrConstantsVersion.INTERIM`. -/
def ANG_BOHR_KKR_INTERIM : ℚ := 18897261249935897 / 10 ^ 16

/-- Literal value `1.8897261254578281` assigned to `KkrConstantsVersion.OLD`. -/
def ANG_BOHR_KKR_OLD : ℚ := 18897261254578281 / 10 ^ 16

/-- The `self._ANG_BOHR_KKR` ordered dictionary from
`KkrConstantsVersionChecker.__init__`, in its literal insertion order:
`NEW`, then `INTERIM`, then `OLD`. -/
def angBohrTable : List (KkrConstantsVersion × ℚ) :=
  [(KkrConstantsVersion.NEW, ANG_BOHR_KKR_NEW),
   (KkrConstantsVersion.INTERIM, ANG_BOHR_KKR_INTERIM),
   (KkrConstantsVersion.OLD, ANG_BOHR_KKR_OLD)]

/-- Step 4 of `KkrConstantsVersionChecker.check_single_workchain`: build the
`difference` ordered dict of absolute differences over `self.ANG_BOHR_KKR`,
collect the indices attaining the minimum, and take the key at the first such
index. The `UNDECISIVE` fallback of the `match` is unreachable (the minimum of
a nonempty list is attained). -/
def classify_constants_version (v : ℚ) : KkrConstantsVersion :=
  let difference := angBohrTable.map (fun p => (p.1, pyAbs (v - p.2)))
  let m := pyMinQ (difference.map Prod.snd)
  match difference.find? (fun p => decide (p.2 = m)) with
  | some p => p.1
  | none => KkrConstantsVersion.UNDECISIVE

/-- The classification as the specification states it: minimal absolute
difference, ties broken by the fixed priority ordering NEW > OLD > INTERIM. -/
def classify_constants_version_claim (v : ℚ) : KkrConstantsVersion :=
  let difference :=
    [(KkrConstantsVersion.NEW, pyAbs (v - ANG_BOHR_KKR_NEW)),
     (KkrConstantsVersion.OLD, pyAbs (v - ANG_BOHR_KKR_OLD)),
     (KkrConstantsVersion.INTERIM, pyAbs (v - ANG_BOHR_KKR_INTERIM))]
  let m := pyMinQ (difference.map Prod.snd)
  match difference.find? (fun p => decide (p.2 = m)) with
  | some p => p.1
  | none => KkrConstantsVersion.UNDECISIVE

/-- The exact midpoint between the INTERIM and OLD literal constants:
`1.88972612522570890`. At this reverse-computed value the absolute
differences to INTERIM and to OLD coincide and are both minimal. -/
def angBohrTieInput : ℚ := 18897261252257089 / 10 ^ 16

/-! ## Reverse computation of ANG_BOHR_KKR (step 3 of check_single_workchain) -/

/-- `reverse_calc_single_ANG_BOHR_KKR` from `check_single_workchain`:
`ALATBASIS * x / y if (y != 0.0 and x != 0.0) else 0.0`. -/
def reverse_calc_single_ANG_BOHR_KKR (ALATBASIS x y : ℚ) : ℚ :=
  if y ≠ 0 ∧ x ≠ 0 then ALATBASIS * x / y else 0

/-- `reverse_calc_ANG_BOHR_KKR` from `check_single_workchain`: elementwise
samples over the matched entries of an inputcard matrix and a structure
matrix (`np.nditer` pairs entries positionally; matrices are modelled as the
flattened lists of their entries). -/
def reverse_calc_ANG_BOHR_KKR (ALATBASIS : ℚ) (inp_arr struc_arr : List ℚ) : List ℚ :=
  (inp_arr.zip struc_arr).map
    (fun p => reverse_calc_single_ANG_BOHR_KKR ALATBASIS p.1 p.2)

/-- Modelled external helper `masci_tools.util.math_util.drop_values(arr,
'zero', 'nan')`: drop entries equal to zero (NaN does not arise in exact
rational arithmetic, so the 'nan' part is vacuous here). -/
def drop_values_zero_nan (l : List ℚ) : List ℚ := l.filter (fun x => x ≠ 0)

/-- `np.mean` of a list; mean of the empty list is NaN in numpy, modelled as
`0` via rational division by zero. -/
def npMean (l : List ℚ) : ℚ := l.sum / l.length

/-- The reverse-computed `ANG_BOHR_KKR` value of step 3 of
`check_single_workchain`: samples over BRAVAIS/cell, then over
RBASIS/positions, concatenated, zero samples dropped, then averaged. -/
def recalculated_ANG_BOHR_KKR (ALATBASIS : ℚ)
    (BRAVAIS structure_cell RBASIS structure_positions : List ℚ) : ℚ :=
  npMean (drop_values_zero_nan
    (reverse_calc_ANG_BOHR_KKR ALATBASIS BRAVAIS structure_cell ++
     reverse_calc_ANG_BOHR_KKR ALATBASIS RBASIS structure_positions))

/-- The C3 claim's description of a single sample: a pair with `x = 0` or
`y = 0` contributes the sample `0.0`. -/
def claim_sample (ALATBASIS : ℚ) (p : ℚ × ℚ) : ℚ :=
  if p.1 = 0 ∨ p.2 = 0 then 0 else ALATBASIS * p.1 / p.2

/-- The C3 claim's description of the reverse-computed constant: the
arithmetic mean of the per-pair samples over all matched pairs, with zero
samples dropped before averaging. -/
def claim_mean_valid_samples (ALATBASIS : ℚ) (pairs : List (ℚ × ℚ)) : ℚ :=
  npMean ((pairs.map (claim_sample ALATBASIS)).filter (fun s => s ≠ 0))

/-! ## The per-workchain check and the result table (check_single_workchain) -/

/-- One row of the checker's result DataFrame (`self._df_schema`). -/
structure KkrCheckRow where
  ctime : Nat
  group : Option String
  ANG_BOHR_KKR : ℚ
  constants_version : KkrConstantsVersion
  diff_new : ℚ
  diff_old : ℚ
  diff_interim : ℚ
deriving DecidableEq, Repr

/-- Abstraction of a finished aiida-kkr workchain as `check_single_workchain`
reads it. `input_data` is `some (ALATBASIS, BRAVAIS, RBASIS)` when a
`kkr_startpot_wc` / `VoronoiCalculation` descendant exists and the inputcard
could be read and parsed; `none` models every early-return path of step 2. -/
structure KkrWorkchain where
  uuid : String
  ctime : Nat
  input_data : Option (ℚ × List ℚ × List ℚ)
  cell : List ℚ
  positions : List ℚ
deriving DecidableEq

/-- Modelled external helper
`masci_tools.util.math_util.set_zero_below_threshold`. -/
def set_zero_below_threshold (threshold : ℚ) (l : List ℚ) : List ℚ :=
  l.map (fun x => if pyAbs x < threshold then 0 else x)

/-- Steps 1-4 of `check_single_workchain` for a workchain that is not yet in
the table: produce the new row, or `none` on the early-return paths (no
startpot/voronoi descendant, unreadable inputcard — `input_data = none` — or
mismatched matrix shapes, which abort the check without a row). -/
def compute_check_row (wc : KkrWorkchain) (zero_threshold : ℚ)
    (group_label : Option String) : Option KkrCheckRow :=
  match wc.input_data with
  | none => none
  | some (ALATBASIS, BRAVAIS, RBASIS) =>
    let structure_cell := set_zero_below_threshold zero_threshold wc.cell
    let structure_positions := set_zero_below_threshold zero_threshold wc.positions
    if BRAVAIS.length = structure_cell.length ∧
        RBASIS.length = structure_positions.length then
      let v := recalculated_ANG_BOHR_KKR ALATBASIS BRAVAIS structure_cell
        RBASIS structure_positions
      some { ctime := wc.ctime
             group := group_label
             ANG_BOHR_KKR := v
             constants_version := classify_constants_version v
             diff_new := pyAbs (v - ANG_BOHR_KKR_NEW)
             diff_old := pyAbs (v - ANG_BOHR_KKR_OLD)
             diff_interim := pyAbs (v - ANG_BOHR_KKR_INTERIM) }
    else none

/-- `KkrConstantsVersionChecker.check_single_workchain`: skip (return the
table unchanged) when the workchain's UUID is already an index entry,
otherwise append the computed row under the workchain's UUID. The DataFrame
is modelled as an association list from UUID to row. -/
def check_single_workchain (df : List (String × KkrCheckRow)) (wc : KkrWorkchain)
    (zero_threshold : ℚ) (group_label : Option String) :
    List (String × KkrCheckRow) :=
  if wc.uuid ∈ df.map Prod.fst then df
  else
    match compute_check_row wc zero_threshold group_label with
    | none => df
    | some row => df ++ [(wc.uuid, row)]

/-! ## CifImporter conversion-settings resolution (util_data.py) -/

/-- Exact AiiDA node type, as tested by `type(node) == _orm.Dict` in
`_try_load_conversion_settings`. -/
inductive AiidaNodeType
  | dictNode
  | cifNode
  | structureNode
  | otherNode
deriving DecidableEq, Repr

/-- An AiiDA node of a structure group, reduced to what
`_load_or_create_conversion_settings` inspects. -/
structure AiidaNode where
  pk : Nat
  ntype : AiidaNodeType
deriving DecidableEq, Repr

/-- `_try_load_conversion_settings` from `CifImporter.load_or_convert`:
with no structure group return `None`; otherwise collect the nodes of exact
type `Dict`; raise `ValueError` when there is more than one hit; else return
the single hit or `None`. -/
def try_load_conversion_settings (struc_group : Option (List AiidaNode)) :
    Except Unit (Option AiidaNode) :=
  match struc_group with
  | none => Except.ok none
  | some nodes =>
    let hits := nodes.filter (fun n => n.ntype = AiidaNodeType.dictNode)
    if 1 < hits.length then Except.error ()
    else Except.ok hits.head?

/-- `_load_or_create_conversion_settings` from `CifImporter.load_or_convert`:
use the settings node found in the structure group when the group exists and
a node was found; otherwise fall back to the argument-supplied node, and
finally to the default settings. -/
def load_or_create_conversion_settings (struc_group : Option (List AiidaNode))
    (conversion_settings : Option AiidaNode) (default_settings : AiidaNode) :
    Except Unit AiidaNode :=
  match try_load_conversion_settings struc_group with
  | Except.error e => Except.error e
  | Except.ok found =>
    match struc_group, found with
    | some _, some n => Except.ok n
    | _, _ =>
      Except.ok (match conversion_settings with
                 | some a => a
                 | none => default_settings)

/-- The C7 claim's description of the resolution: raise exactly when the
existing structure group holds more than one conversion-settings Dict node;
with zero or one such node proceed with the found node, the argument-supplied
node, or the default, in that priority order. -/
def conversion_settings_claim (struc_group : Option (List AiidaNode))
    (conversion_settings : Option AiidaNode) (default_settings : AiidaNode) :
    Except Unit AiidaNode :=
  match struc_group with
  | some nodes =>
    let hits := nodes.filter (fun n => n.ntype = AiidaNodeType.dictNode)
    if 1 < hits.length then Except.error ()
    else Except.ok (hits.head?.getD (conversion_settings.getD default_settings))
  | none => Except.ok (conversion_settings.getD default_settings)

/-! ## Python value model for the options subsystem (computer/options.py) -/

/-- Scalar Python values seen in option records and keyword arguments. -/
inductive PyPrim where
  | pynone
  | str (s : String)
  | int (n : Nat)
  | bool (b : Bool)
deriving DecidableEq, Repr

/-- Python truthiness of a scalar. -/
def PyPrim.truthy : PyPrim → Bool
  | .pynone => false
  | .str s => !s.isEmpty
  | .int n => n != 0
  | .bool b => b

/-- Python values stored in option `Dict` node attributes and passed as
keyword arguments: a scalar, a dict of scalars, or a list of scalars. The
source allows deeper nesting but ignores it for querying (levels above 2 are
skipped with a warning); values here are capped at the two levels the options
records use. -/
inductive PyVal where
  | prim (p : PyPrim)
  | dict (d : List (String × PyPrim))
  | list (l : List PyPrim)
deriving DecidableEq, Repr

/-- Python truthiness of a value. -/
def PyVal.truthy : PyVal → Bool
  | .prim p => p.truthy
  | .dict d => !d.isEmpty
  | .list l => !l.isEmpty

/-- Whether a value is a Python `dict` (`isinstance(value, dict)`). -/
def PyVal.isDict : PyVal → Bool
  | .dict _ => true
  | _ => false

/-- Lookup in a Python dict modelled as an ordered association list
(`d.get(k, None)` / `d[k]` with `KeyError` as `none`). -/
def getAttr {α : Type} (d : List (String × α)) (k : String) : Option α :=
  match d with
  | [] => none
  | kv :: rest => if kv.1 = k then some kv.2 else getAttr rest k

/-- Assignment `d[k] = v` on a Python dict: replaces in place, preserving the
insertion position of an existing key, appending a new key at the end. -/
def setAttr {α : Type} (d : List (String × α)) (k : String) (v : α) :
    List (String × α) :=
  match d with
  | [] => [(k, v)]
  | kv :: rest => if kv.1 = k then (k, v) :: rest else kv :: setAttr rest k v

/-- Truthiness of `d.get(k, None)`. -/
def truthyAttr (d : List (String × PyVal)) (k : String) : Bool :=
  match getAttr d k with
  | some v => v.truthy
  | none => false

/-- Truthiness of an optional string argument (Python: `None` and the empty
string are falsy). -/
def truthyOptS : Option String → Bool
  | some s => !s.isEmpty
  | none => false

/-- A nested `Nat` lookup `attrs[k][sk]` under the resources sub-dict (the
source only ever stores integer process counts there; non-integer values are
treated like missing keys). -/
def subAttrNat (attrs : List (String × PyVal)) (k sk : String) : Option Nat :=
  match getAttr attrs k with
  | some (PyVal.dict d) =>
    match getAttr d sk with
    | some (PyPrim.int n) => some n
    | _ => none
  | _ => none

/-- Substring test on character lists, for the SQL `ilike '%pat%'` filter. -/
def listHasInfix (pat l : List Char) : Bool :=
  match l with
  | [] => pat.isEmpty
  | _ :: t => pat.isPrefixOf l || listHasInfix pat t

/-- Substring test on strings. -/
def strContains (s pat : String) : Bool := listHasInfix pat.toList s.toList

/-! ## Options data model: nodes, computers, environment -/

/-- An AiiDA `Dict` node holding a computer options record. `nid` models the
node's database identity (pk). -/
structure OptionsDictNode where
  nid : Nat
  label : String
  attrs : List (String × PyVal)
  is_stored : Bool
deriving DecidableEq, Repr

/-- An AiiDA computer, reduced to what `get_options` consults: compatibility
with `jutools.computer.get_queues` (which raises `NotImplementedError`
otherwise), the queue list it reports (already sorted by occupancy), and its
default mpiprocs-per-machine. The `gpu` filter of `get_queues` is not
modelled separately; `queues` stands for the reported list under the fixed
`gpu` argument of the call. -/
structure SchedComputer where
  label : String
  compatible : Bool
  queues : List String
  default_mpiprocs_per_machine : Option Nat
deriving DecidableEq, Repr

/-- The external AiiDA database as `get_options` queries it for computers:
`jutools.computer.get_computers(computer_name_pattern)`. -/
structure AiidaEnv where
  get_computers : String → List SchedComputer

/-- Python exceptions raised (or non-termination entered) by the options
subsystem. -/
inductive PyErr
  | notExistent
  | valueError
  | notImplementedError
  | typeError
  | nonTermination
deriving DecidableEq, Repr

/-- The arguments of `_OptionsConfig.get_options` (the remaining keyword
arguments are `kwargs`). -/
structure OptArgs where
  store_if_not_exist : Bool := true
  computer_name : Option String := none
  gpu : Option Bool := none
  withmpi : Bool := true
  queue_name : Option String := none
  account : Option String := none
  kwargs : List (String × PyVal) := []

/-- The `_OptionsConfig` fields that `get_options` consults besides the group
contents and associated computers. -/
structure OptionsConfigState where
  name : String
  is_initialized : Bool
  mandatory : List String

/-! ## get_options: keyword validation and the options query -/

/-- The computer options fields of `aiida.engine.CalcJob.spec_options`, as
returned by `get_help('keywords')` (an external fixed list). -/
def all_options_keys : List String :=
  ["account", "append_text", "custom_scheduler_commands", "environment_variables",
   "import_sys_environment", "input_filename", "max_memory_kb",
   "max_wallclock_seconds", "mpirun_extra_params", "output_filename",
   "parser_name", "prepend_text", "priority", "qos", "queue_name", "resources",
   "scheduler_stderr", "scheduler_stdout", "submit_script_filename", "withmpi"]

/-- `explicit_argument_keywords` from `get_options`: keywords that are named
method arguments and are popped from the valid kwargs keys. -/
def explicit_argument_keywords : List String := ["withmpi", "queue_name", "account"]

/-- The kwargs validation at the start of `get_options`: drop keywords that
are not known options fields (after popping the explicit argument keywords),
then drop a `resources` keyword whose value is not a dict. -/
def validateKwargs (kwargs : List (String × PyVal)) : List (String × PyVal) :=
  let valid := kwargs.filter
    (fun kv => decide (kv.1 ∈ all_options_keys ∧ kv.1 ∉ explicit_argument_keywords))
  valid.filter (fun kv => !(kv.1 == "resources" && !kv.2.isDict))

/-- One conjunct of the QueryBuilder `filters = {"and": [...]}` list. -/
inductive OptFilter where
  | attrEq (key : String) (v : PyVal)
  | subAttrEq (key sub : String) (v : PyPrim)
  | cscContains (sub : String)
deriving DecidableEq, Repr

/-- The query conjuncts contributed by one validated keyword argument:
scalars give an `attributes.k == v` filter, dict values one
`attributes.k.sk == sv` filter per entry, and list values are skipped with a
warning. -/
def kwargFilters (kv : String × PyVal) : List OptFilter :=
  match kv.2 with
  | PyVal.list _ => []
  | PyVal.dict d => d.map (fun sv => OptFilter.subAttrEq kv.1 sv.1 sv.2)
  | PyVal.prim p => [OptFilter.attrEq kv.1 (PyVal.prim p)]

/-- The full filter list built by `get_options` before the options query:
`queue_name` equality when a queue name is set, the
`custom_scheduler_commands ilike '%--account=...%'` filter when an account is
set, `withmpi` equality when `withmpi` is truthy, then the validated kwargs
conjuncts. -/
def buildFilters (queue_name account : Option String) (withmpi : Bool)
    (valid_kwargs : List (String × PyVal)) : List OptFilter :=
  (if truthyOptS queue_name
   then [OptFilter.attrEq "queue_name" (PyVal.prim (PyPrim.str (queue_name.getD "")))]
   else [])
  ++ (if truthyOptS account
      then [OptFilter.cscContains ("--account=" ++ account.getD "")]
      else [])
  ++ (if withmpi then [OptFilter.attrEq "withmpi" (PyVal.prim (PyPrim.bool true))] else [])
  ++ valid_kwargs.foldr (fun kv acc => kwargFilters kv ++ acc) []

/-- Whether an options record satisfies one query conjunct. -/
def matchesFilter (attrs : List (String × PyVal)) : OptFilter → Bool
  | OptFilter.attrEq k v => decide (getAttr attrs k = some v)
  | OptFilter.subAttrEq k sk v =>
    match getAttr attrs k with
    | some (PyVal.dict d) => decide (getAttr d sk = some v)
    | _ => false
  | OptFilter.cscContains sub =>
    match getAttr attrs "custom_scheduler_commands" with
    | some (PyVal.prim (PyPrim.str s)) => strContains s sub
    | _ => false

/-- Whether an options record satisfies every query conjunct. -/
def matchesFilters (filters : List OptFilter) (n : OptionsDictNode) : Bool :=
  filters.all (matchesFilter n.attrs)

/-! ## get_options: resolution of the mandatory queue_name argument -/

/-- The scan over the config's own associated computers: try
`get_queues` on each computer in turn, removing computers that raise
`NotImplementedError` (incompatible ones), and stop at the first nonempty
queue list. Returns the queue list found (possibly empty) and the retained
computer list. -/
def own_computer_queues : List SchedComputer → List String × List SchedComputer
  | [] => ([], [])
  | c :: rest =>
    if c.compatible then
      if !c.queues.isEmpty then (c.queues, c :: rest)
      else
        let r := own_computer_queues rest
        (r.1, c :: r.2)
    else own_computer_queues rest

/-- The scan over computers found in the database: here `get_queues` is
called without a `try`, so an incompatible computer raises
`NotImplementedError`; the first computer with a nonempty queue list wins. -/
def db_computer_scan : List SchedComputer → Except PyErr (Option SchedComputer)
  | [] => Except.ok none
  | c :: rest =>
    if !c.compatible then Except.error PyErr.notImplementedError
    else if !c.queues.isEmpty then Except.ok (some c)
    else db_computer_scan rest

/-- ASCII letter test for `re.findall("[a-zA-Z]+", ...)`. -/
def isAsciiLetter (c : Char) : Bool :=
  (97 ≤ c.toNat && c.toNat ≤ 122) || (65 ≤ c.toNat && c.toNat ≤ 90)

/-- `re.findall("[a-zA-Z]+", s)`: the maximal runs of ASCII letters. -/
def alphaWords (s : String) : List String :=
  (((s.toList.map (fun c => if isAsciiLetter c then c else ' ')).asString).splitOn " ").filter
    (fun w => !w.isEmpty)

/-- The word-by-word fallback lookup of computers from the decomposed config
name. -/
def word_scan (env : AiidaEnv) : List String → List SchedComputer
  | [] => []
  | w :: ws =>
    let r := env.get_computers w
    if !r.isEmpty then r else word_scan env ws

/-- The database lookup of candidate computers: by the `computer_name`
argument when truthy, else by the config name; when that yields nothing, by
the individual words of the config name. -/
def find_computers_by_pattern (env : AiidaEnv) (cfg_name : String)
    (computer_name : Option String) : List SchedComputer :=
  let pattern := if truthyOptS computer_name then computer_name.getD "" else cfg_name
  let cs := env.get_computers pattern
  if !cs.isEmpty then cs else word_scan env (alphaWords cfg_name)

/-- The final step of the queue_name resolution: when a queue name was
supplied (truthy), validate that it occurs among the found queue names, else
choose the first (least occupied) queue. -/
def choose_queue (queue_name : Option String) (queue_names : List String)
    (cs : List SchedComputer) : Except PyErr (Option String × List SchedComputer) :=
  if truthyOptS queue_name then
    if (queue_name.getD "") ∈ queue_names then Except.ok (queue_name, cs)
    else Except.error PyErr.valueError
  else Except.ok (queue_names.head?, cs)

/-- The `mandatory_key == "queue_name"` branch of `get_options`: first scan
the config's own computers, then computers looked up in the database (raising
`NotExistent` when none are found and `ValueError` when none reports a
queue); a database computer that reported queues is appended to the config's
computers. -/
def resolve_queue_name (env : AiidaEnv) (cfg_name : String)
    (computer_name : Option String) (queue_name : Option String)
    (computers : List SchedComputer) :
    Except PyErr (Option String × List SchedComputer) :=
  let r := own_computer_queues computers
  if !r.1.isEmpty then choose_queue queue_name r.1 r.2
  else
    let dbcs := find_computers_by_pattern env cfg_name computer_name
    if dbcs.isEmpty then Except.error PyErr.notExistent
    else
      match db_computer_scan dbcs with
      | Except.error e => Except.error e
      | Except.ok none => Except.error PyErr.valueError
      | Except.ok (some c) => choose_queue queue_name c.queues (r.2 ++ [c])

/-- The loop over `self._query_config.mandatory` in `get_options`: the
`queue_name` key triggers the queue resolution, the `account` key raises
`NotImplementedError` when no account was supplied, other keys only produce a
warning. -/
def resolve_mandatory (env : AiidaEnv) (cfg_name : String)
    (computer_name account : Option String) :
    List String → Option String → List SchedComputer →
    Except PyErr (Option String × List SchedComputer)
  | [], queue_name, computers => Except.ok (queue_name, computers)
  | key :: rest, queue_name, computers =>
    if key = "queue_name" then
      match resolve_queue_name env cfg_name computer_name queue_name computers with
      | Except.error e => Except.error e
      | Except.ok (q, cs) => resolve_mandatory env cfg_name computer_name account rest q cs
    else if key = "account" then
      if truthyOptS account then
        resolve_mandatory env cfg_name computer_name account rest queue_name computers
      else Except.error PyErr.notImplementedError
    else resolve_mandatory env cfg_name computer_name account rest queue_name computers

/-! ## get_options: creation defaults and the mpiprocs determination -/

/-- Python `max` over a list of naturals (`None` for the empty list). -/
def pyMaxNat : List Nat → Option Nat
  | [] => none
  | [x] => some x
  | x :: y :: t => (pyMaxNat (y :: t)).map (fun m => max x m)

/-- Python `min` over a list of naturals (`None` for the empty list). -/
def pyMinNat : List Nat → Option Nat
  | [] => none
  | [x] => some x
  | x :: y :: t => (pyMinNat (y :: t)).map (fun m => min x m)

/-- Truthiness of the Python variables `tot_num_mpiprocs` /
`mpiprocs_per_mac` (either `None` or an integer). -/
def truthyN : Option Nat → Bool
  | some n => n != 0
  | none => false

/-- The `tot_num_mpiprocs` samples from existing options of the given queue:
options whose `queue_name` attribute equals the queue, with truthy `withmpi`
and truthy `resources`, contributing their truthy `tot_num_mpiprocs`. -/
def queue_collect_tot (options : List OptionsDictNode) (q : String) : List Nat :=
  (options.filter
      (fun opt => decide (getAttr opt.attrs "queue_name" = some (PyVal.prim (PyPrim.str q))))).filterMap
    (fun opt =>
      if truthyAttr opt.attrs "withmpi" && truthyAttr opt.attrs "resources" then
        match subAttrNat opt.attrs "resources" "tot_num_mpiprocs" with
        | some t => if t != 0 then some t else none
        | none => none
      else none)

/-- The `num_mpiprocs_per_machine` samples from existing options of the given
queue (same guards as `queue_collect_tot`). -/
def queue_collect_mpiper (options : List OptionsDictNode) (q : String) : List Nat :=
  (options.filter
      (fun opt => decide (getAttr opt.attrs "queue_name" = some (PyVal.prim (PyPrim.str q))))).filterMap
    (fun opt =>
      if truthyAttr opt.attrs "withmpi" && truthyAttr opt.attrs "resources" then
        match subAttrNat opt.attrs "resources" "num_mpiprocs_per_machine" with
        | some m => if m != 0 then some m else none
        | none => none
      else none)

/-- The global `tot_num_mpiprocs` samples over all options of the config:
options with a present, truthy `withmpi` attribute contribute their
`resources.tot_num_mpiprocs` entry; a missing key raises `KeyError`, which is
caught and skips the option. Zero values are collected here (no truthiness
guard in this loop). -/
def global_collect_tot (options : List OptionsDictNode) : List Nat :=
  options.filterMap (fun opt =>
    match getAttr opt.attrs "withmpi" with
    | some w =>
      if w.truthy then subAttrNat opt.attrs "resources" "tot_num_mpiprocs" else none
    | none => none)

/-- The global `num_mpiprocs_per_machine` samples: appended right after the
`tot_num_mpiprocs` lookup of the same option, so a `KeyError` on
`tot_num_mpiprocs` skips this one too, while a `KeyError` here leaves the
already-appended `tot_num_mpiprocs` sample in place. -/
def global_collect_mpiper (options : List OptionsDictNode) : List Nat :=
  options.filterMap (fun opt =>
    match getAttr opt.attrs "withmpi" with
    | some w =>
      if w.truthy then
        match subAttrNat opt.attrs "resources" "tot_num_mpiprocs" with
        | some _ => subAttrNat opt.attrs "resources" "num_mpiprocs_per_machine"
        | none => none
      else none
    | none => none)

/-- The mpiprocs determination of the `withmpi=True` creation default, when
neither `tot_num_mpiprocs` nor `num_mpiprocs_per_machine` is given: first the
maxima over existing options of the same queue; if both are falsy, the minima
over all existing options with the literal `1` substituted for an empty
sample list; if both are still falsy, the first associated computer's default
mpiprocs-per-machine — the loop over computers never advances its index, so a
first computer with a falsy default makes the loop run forever
(`PyErr.nonTermination`). -/
def determine_mpiprocs (options : List OptionsDictNode) (queue_name : Option String)
    (computers : List SchedComputer) : Except PyErr (Option Nat × Option Nat) :=
  let s0 : Option Nat × Option Nat :=
    if truthyOptS queue_name then
      (pyMaxNat (queue_collect_tot options (queue_name.getD "")),
       pyMaxNat (queue_collect_mpiper options (queue_name.getD "")))
    else (none, none)
  let s1 : Option Nat × Option Nat :=
    if !truthyN s0.1 && !truthyN s0.2 then
      (some ((pyMinNat (global_collect_tot options)).getD 1),
       some ((pyMinNat (global_collect_mpiper options)).getD 1))
    else s0
  if !truthyN s1.1 && !truthyN s1.2 then
    match computers with
    | [] => Except.ok s1
    | c :: _ =>
      match c.default_mpiprocs_per_machine with
      | some d => if d != 0 then Except.ok (s1.1, some d) else Except.error PyErr.nonTermination
      | none => Except.error PyErr.nonTermination
  else Except.ok s1

/-- The final assignment into the default `resources` value
`{"num_machines": 1}`: the determined `tot_num_mpiprocs` when truthy and
greater than one, else the determined `num_mpiprocs_per_machine` when truthy
and greater than one, else `tot_num_mpiprocs` as-is (possibly `None`). -/
def mpi_resources_value (det : Option Nat × Option Nat) : List (String × PyPrim) :=
  let base : List (String × PyPrim) := [("num_machines", PyPrim.int 1)]
  if truthyN det.1 && decide (1 < det.1.getD 0) then
    setAttr base "tot_num_mpiprocs" (PyPrim.int (det.1.getD 0))
  else if truthyN det.2 && decide (1 < det.2.getD 0) then
    setAttr base "num_mpiprocs_per_machine" (PyPrim.int (det.2.getD 0))
  else
    setAttr base "tot_num_mpiprocs"
      (match det.1 with
       | some t => PyPrim.int t
       | none => PyPrim.pynone)

/-! ## get_options: creation of a new options record -/

/-- Update of one sub-dict by user-specified subattributes:
`opt_dict[attr][subattr] = subvalue` for every entry. -/
def mergeSubDict (ex sub : List (String × PyPrim)) : List (String × PyPrim) :=
  sub.foldl (fun acc sv => setAttr acc sv.1 sv.2) ex

/-- Overwriting one creation default with one user keyword argument: a
non-dict value (or a dict value over a falsy existing entry) replaces the
entry; a dict value over a truthy dict entry is merged subattribute-wise; a
dict value over a truthy non-dict entry is a Python `TypeError`. -/
def mergeKwarg (d : List (String × PyVal)) (kv : String × PyVal) :
    Except PyErr (List (String × PyVal)) :=
  match kv.2 with
  | PyVal.dict sub =>
    match getAttr d kv.1 with
    | some v =>
      if v.truthy then
        match v with
        | PyVal.dict ex => Except.ok (setAttr d kv.1 (PyVal.dict (mergeSubDict ex sub)))
        | _ => Except.error PyErr.typeError
      else Except.ok (setAttr d kv.1 (PyVal.dict sub))
    | none => Except.ok (setAttr d kv.1 (PyVal.dict sub))
  | v => Except.ok (setAttr d kv.1 v)

/-- Folding all user keyword arguments over the creation defaults. -/
def mergeKwargs (d : List (String × PyVal)) :
    List (String × PyVal) → Except PyErr (List (String × PyVal))
  | [] => Except.ok d
  | kv :: rest =>
    match mergeKwarg d kv with
    | Except.error e => Except.error e
    | Except.ok d2 => mergeKwargs d2 rest

/-- The label given to a newly created options node. -/
def opt_label (cfg_name : String) (queue_name account : Option String)
    (withmpi : Bool) : String :=
  let l0 := "options_" ++ cfg_name
  let l1 := if truthyOptS queue_name then l0 ++ "_" ++ queue_name.getD "" else l0
  let l2 := if truthyOptS account then l1 ++ "_" ++ account.getD "" else l1
  if !withmpi then l2 ++ "_serial" else l2

/-- The explicit-argument and unconditional-default part of the `opt_dict`
built when `get_options` creates a new options record: the user-specified
explicit arguments first (`withmpi`, `queue_name`, the account folded into
`custom_scheduler_commands` starting from the `#SBATCH` stub), then the
unconditional default `max_wallclock_seconds`. -/
def create_base_attrs (queue_name account : Option String) (withmpi : Bool) :
    List (String × PyVal) :=
  let d0 : List (String × PyVal) :=
    if withmpi then [("withmpi", PyVal.prim (PyPrim.bool true))] else []
  let d1 :=
    if truthyOptS queue_name then
      setAttr d0 "queue_name" (PyVal.prim (PyPrim.str (queue_name.getD "")))
    else d0
  let d2 :=
    if truthyOptS account then
      setAttr d1 "custom_scheduler_commands"
        (PyVal.prim (PyPrim.str ("#SBATCH --account=" ++ account.getD "")))
    else d1
  setAttr d2 "max_wallclock_seconds" (PyVal.prim (PyPrim.int 86400))

/-- The `opt_dict` built when `get_options` creates a new options record:
the explicit arguments and unconditional defaults of `create_base_attrs`,
then the conditional `resources` default (with the mpiprocs determination
for `withmpi=True`), then the user keyword arguments, which may overwrite
defaults. The source mutates the shared default resources dict in place
during the determination; a single creation call starting from the
configured literal defaults is modelled. -/
def create_opt_attrs (options : List OptionsDictNode)
    (queue_name account : Option String) (withmpi : Bool)
    (computers env_computers : List SchedComputer)
    (valid_kwargs : List (String × PyVal)) :
    Except PyErr (List (String × PyVal)) :=
  let comps := if computers.isEmpty then env_computers else computers
  let resources :=
    if withmpi then
      (determine_mpiprocs options queue_name comps).map mpi_resources_value
    else
      Except.ok [("num_machines", PyPrim.int 1), ("tot_num_mpiprocs", PyPrim.int 1)]
  match resources with
  | Except.error e => Except.error e
  | Except.ok res =>
    mergeKwargs
      (setAttr (create_base_attrs queue_name account withmpi) "resources" (PyVal.dict res))
      valid_kwargs

/-- A fresh node id for a newly stored options node. -/
def fresh_node_id (store : List OptionsDictNode) : Nat :=
  store.foldr (fun n m => max n.nid m) 0 + 1

/-- `_OptionsConfig.get_options`, with `as_Dict=True`. The external state is
`group_options` (the distinct `Dict` nodes of the config's groups, which both
the options query and `self.options` range over) and `computers` (the
config's associated computer list, which the queue resolution may prune or
extend). Returns the result list together with the two updated state
components. An uninitialized config returns the empty list and leaves the
state untouched. -/
def get_options (env : AiidaEnv) (cfg : OptionsConfigState)
    (group_options : List OptionsDictNode) (computers : List SchedComputer)
    (args : OptArgs) :
    Except PyErr (List OptionsDictNode × List OptionsDictNode × List SchedComputer) :=
  if !cfg.is_initialized then Except.ok ([], group_options, computers)
  else
    let valid_kwargs := validateKwargs args.kwargs
    match resolve_mandatory env cfg.name args.computer_name args.account
        cfg.mandatory args.queue_name computers with
    | Except.error e => Except.error e
    | Except.ok (queue_name, computers2) =>
      let filters := buildFilters queue_name args.account args.withmpi valid_kwargs
      let res := group_options.filter (matchesFilters filters)
      if res.isEmpty then
        match create_opt_attrs group_options queue_name args.account args.withmpi
            computers2 (env.get_computers cfg.name) valid_kwargs with
        | Except.error e => Except.error e
        | Except.ok attrs =>
          let node : OptionsDictNode :=
            { nid := fresh_node_id group_options
              label := opt_label cfg.name queue_name args.account args.withmpi
              attrs := attrs
              is_stored := args.store_if_not_exist }
          let store2 :=
            if args.store_if_not_exist then group_options ++ [node] else group_options
          if truthyAttr node.attrs "resources" then Except.ok ([node], store2, computers2)
          else Except.ok ([], store2, computers2)
      else
        let valid := res.filter (fun n => truthyAttr n.attrs "resources")
        if valid.length = res.length then Except.ok (valid, group_options, computers2)
        else Except.ok ([], group_options, computers2)

/-! ## _OptionsConfig.initialize, step 2: load or create the default options -/

/-- The search of step 2 of `initialize`: the first stored `Dict` node among
the config's groups (groups in order, nodes in order) whose attribute map
equals the default option's attribute map. -/
def find_group_match (groups : List (List OptionsDictNode))
    (option : OptionsDictNode) : Option OptionsDictNode :=
  match groups with
  | [] => none
  | g :: rest =>
    match (g.filter (fun n => n.is_stored)).find?
        (fun n => decide (n.attrs = option.attrs)) with
    | some n => some n
    | none => find_group_match rest option

/-- The load phase of step 2 of `initialize`: replace each default option
with a matching stored group node where one exists (preserving the default's
label when the stored node has none). -/
def load_default_options (options : List OptionsDictNode)
    (groups : List (List OptionsDictNode)) : List OptionsDictNode :=
  options.map (fun o =>
    match find_group_match groups o with
    | some n => if n.label.isEmpty then { n with label := o.label } else n
    | none => o)

/-- The create phase of step 2 of `initialize`: store every still-unstored
option and add it to all of the config's groups. -/
def store_default_options (options : List OptionsDictNode)
    (groups : List (List OptionsDictNode)) :
    List OptionsDictNode × List (List OptionsDictNode) :=
  let new_nodes := (options.filter (fun o => !o.is_stored)).map
    (fun o => { o with is_stored := true })
  (options.map (fun o => if o.is_stored then o else { o with is_stored := true }),
   groups.map (fun g => g ++ new_nodes))

/-- Step 2 of `_OptionsConfig.initialize`: the load phase followed by the
create phase. -/
def init_default_options (options : List OptionsDictNode)
    (groups : List (List OptionsDictNode)) :
    List OptionsDictNode × List (List OptionsDictNode) :=
  store_default_options (load_default_options options groups) groups

/-! ## Claim-side definitions for comparison -/

/-- The C4 claim's defaulting chain for the mpiprocs value, stated from the
claim's words: explicit arguments first (absent under the claim's premise),
then the per-queue maxima over existing options, then the global minima over
all existing options, then the associated computer's default
mpiprocs-per-machine, then the literal fallback `1` — each later source used
only when every earlier source yields nothing. -/
def mpi_chain_claim (options : List OptionsDictNode) (queue_name : Option String)
    (computers : List SchedComputer) : Option Nat × Option Nat :=
  let qmax : Option Nat × Option Nat :=
    if truthyOptS queue_name then
      (pyMaxNat (queue_collect_tot options (queue_name.getD "")),
       pyMaxNat (queue_collect_mpiper options (queue_name.getD "")))
    else (none, none)
  if qmax ≠ (none, none) then qmax
  else
    let gmin : Option Nat × Option Nat :=
      (pyMinNat (global_collect_tot options), pyMinNat (global_collect_mpiper options))
    if gmin ≠ (none, none) then gmin
    else
      match computers with
      | [] => (none, some 1)
      | c :: _ =>
        match c.default_mpiprocs_per_machine with
        | some d => (none, some d)
        | none => (none, some 1)

/-- The amended C4 defaulting chain matching the source: the per-queue
maxima over existing options; when both are falsy, the global minima over
all existing options with the literal `1` substituted for an empty sample
list — so this stage always yields values and the computer default is never
consulted (it is only reachable through zero-valued stored process counts). -/
def mpi_chain_amended (options : List OptionsDictNode) (queue_name : Option String) :
    Option Nat × Option Nat :=
  let qmax : Option Nat × Option Nat :=
    if truthyOptS queue_name then
      (pyMaxNat (queue_collect_tot options (queue_name.getD "")),
       pyMaxNat (queue_collect_mpiper options (queue_name.getD "")))
    else (none, none)
  if qmax ≠ (none, none) then qmax
  else
    (some ((pyMinNat (global_collect_tot options)).getD 1),
     some ((pyMinNat (global_collect_mpiper options)).getD 1))

/-! ## Concrete inputs for witnesses and counterexamples -/

/-- An environment whose computer lookups find nothing. -/
def emptyEnv : AiidaEnv := ⟨fun _ => []⟩

/-- An initialized config with no mandatory query fields (the default
`_OptionsQueryConfig`). -/
def plainConfig : OptionsConfigState :=
  { name := "conf", is_initialized := true, mandatory := [] }

/-- An initialized config requiring `queue_name` and `account` (the shape of
the per-cluster query configs). -/
def mandatoryConfig : OptionsConfigState :=
  { name := "clu", is_initialized := true, mandatory := ["queue_name", "account"] }

/-- The C2 counterexample arguments: a truthy `account` together with a
`custom_scheduler_commands` keyword argument. -/
def cscClashArgs : OptArgs :=
  { store_if_not_exist := true, computer_name := none, gpu := none, withmpi := true,
    queue_name := none, account := some "a",
    kwargs := [("custom_scheduler_commands", PyVal.prim (PyPrim.str "foo"))] }

/-- The store of the C2 counterexample after the first call. -/
def cscClashStore1 : List OptionsDictNode :=
  match get_options emptyEnv plainConfig [] [] cscClashArgs with
  | Except.ok (_, s, _) => s
  | Except.error _ => []

/-- The store of the C2 counterexample after the second call. -/
def cscClashStore2 : List OptionsDictNode :=
  match get_options emptyEnv plainConfig cscClashStore1 [] cscClashArgs with
  | Except.ok (_, s, _) => s
  | Except.error _ => []

/-- Benign `get_options` arguments for the C2 witness. -/
def benignArgs : OptArgs :=
  { store_if_not_exist := true, computer_name := none, gpu := none, withmpi := true,
    queue_name := some "q1", account := some "acct",
    kwargs := [("max_memory_kb", PyVal.prim (PyPrim.int 5))] }

/-- A compatible computer with one queue and default mpiprocs-per-machine 24,
for the C4 counterexample. -/
def c4Computer : SchedComputer :=
  { label := "c", compatible := true, queues := ["q"],
    default_mpiprocs_per_machine := some 24 }

/-- A sample result row for the C9 witness. -/
def sampleRow : KkrCheckRow :=
  { ctime := 0, group := none, ANG_BOHR_KKR := 0,
    constants_version := KkrConstantsVersion.NEW,
    diff_new := 0, diff_old := 0, diff_interim := 0 }

/-- A sample workchain for the C9 witness. -/
def sampleWc : KkrWorkchain :=
  { uuid := "u", ctime := 3, input_data := none, cell := [], positions := [] }

/-- A sample unstored default options node for the C5 witness. -/
def sampleDefaultOption : OptionsDictNode :=
  { nid := 7, label := "options_localhost_serial",
    attrs := [("withmpi", PyVal.prim (PyPrim.bool false)),
              ("max_wallclock_seconds", PyVal.prim (PyPrim.int 3600)),
              ("resources", PyVal.dict [("num_machines", PyPrim.int 1),
                                        ("tot_num_mpiprocs", PyPrim.int 1)])],
    is_stored := false }

/-! # Lemmas -/

theorem pyMinQ_mem : ∀ (l : List ℚ), l ≠ [] → pyMinQ l ∈ l
  | [], h => absurd rfl h
  | [x], _ => by simp [pyMinQ]
  | x :: y :: t, _ => by
      have ih := pyMinQ_mem (y :: t) (by simp)
      by_cases hx : x ≤ pyMinQ (y :: t)
      · simp [pyMinQ, min_def, hx]
      · simp only [pyMinQ, min_def, if_neg hx]
        exact List.mem_cons_of_mem _ ih

theorem find_min_key_mem {K : Type} (k1 k2 k3 : K) (d1 d2 d3 : ℚ) :
    ∃ p, List.find? (fun q => decide (q.2 = pyMinQ [d1, d2, d3]))
        [(k1, d1), (k2, d2), (k3, d3)] = some p ∧
      (p.1 = k1 ∨ p.1 = k2 ∨ p.1 = k3) := by
  cases h1 : decide (d1 = pyMinQ [d1, d2, d3]) with
  | true => exact ⟨(k1, d1), by simp [List.find?_cons, h1], Or.inl rfl⟩
  | false =>
    cases h2 : decide (d2 = pyMinQ [d1, d2, d3]) with
    | true => exact ⟨(k2, d2), by simp [List.find?_cons, h1, h2], Or.inr (Or.inl rfl)⟩
    | false =>
      have h3 : decide (d3 = pyMinQ [d1, d2, d3]) = true := by
        have hmem := pyMinQ_mem [d1, d2, d3] (by simp)
        simp only [List.mem_cons, List.not_mem_nil, or_false] at hmem
        simp only [decide_eq_false_iff_not] at h1 h2
        rcases hmem with h | h | h
        · exact absurd h.symm h1
        · exact absurd h.symm h2
        · exact decide_eq_true h.symm
      exact ⟨(k3, d3), by simp [List.find?_cons, h1, h2, h3], Or.inr (Or.inr rfl)⟩

theorem classify_mem_table (v : ℚ) :
    classify_constants_version v = KkrConstantsVersion.NEW ∨
    classify_constants_version v = KkrConstantsVersion.INTERIM ∨
    classify_constants_version v = KkrConstantsVersion.OLD := by
  unfold classify_constants_version angBohrTable
  simp only [List.map]
  obtain ⟨p, hp, hk⟩ := find_min_key_mem KkrConstantsVersion.NEW
    KkrConstantsVersion.INTERIM KkrConstantsVersion.OLD
    (pyAbs (v - ANG_BOHR_KKR_NEW)) (pyAbs (v - ANG_BOHR_KKR_INTERIM))
    (pyAbs (v - ANG_BOHR_KKR_OLD))
  rw [hp]
  exact hk

theorem tie_diff_new : pyAbs (angBohrTieInput - ANG_BOHR_KKR_NEW) = 5999387 / 10 ^ 16 := by
  unfold pyAbs
  rw [if_neg (by norm_num [angBohrTieInput, ANG_BOHR_KKR_NEW])]
  norm_num [angBohrTieInput, ANG_BOHR_KKR_NEW]

theorem tie_diff_interim :
    pyAbs (angBohrTieInput - ANG_BOHR_KKR_INTERIM) = 2321192 / 10 ^ 16 := by
  unfold pyAbs
  rw [if_neg (by norm_num [angBohrTieInput, ANG_BOHR_KKR_INTERIM])]
  norm_num [angBohrTieInput, ANG_BOHR_KKR_INTERIM]

theorem tie_diff_old : pyAbs (angBohrTieInput - ANG_BOHR_KKR_OLD) = 2321192 / 10 ^ 16 := by
  unfold pyAbs
  rw [if_pos (by norm_num [angBohrTieInput, ANG_BOHR_KKR_OLD])]
  norm_num [angBohrTieInput, ANG_BOHR_KKR_OLD]

theorem tie_min :
    pyMinQ [(5999387 : ℚ) / 10 ^ 16, 2321192 / 10 ^ 16, 2321192 / 10 ^ 16] =
      2321192 / 10 ^ 16 := by
  simp only [pyMinQ]
  rw [min_self]
  exact min_eq_right (by norm_num)

theorem reverse_calc_single_eq_claim_sample (A : ℚ) (p : ℚ × ℚ) :
    reverse_calc_single_ANG_BOHR_KKR A p.1 p.2 = claim_sample A p := by
  unfold reverse_calc_single_ANG_BOHR_KKR claim_sample
  by_cases hx : p.1 = 0 <;> by_cases hy : p.2 = 0 <;> simp [hx, hy]

/-! # Theorems for the claims -/

/-- C1. The claim states that `check_single_workchain` classifies by minimal
absolute difference over the three literal `ANG_BOHR_KKR` table entries with
ties broken by the priority ordering NEW > OLD > INTERIM — the ordering the
source itself documents in the `self._ANG_BOHR_KKR` comment (`order
importance: NEW > OLD > INTERIM`) and in the `KkrConstantsVersion` docstring.
The code, however, iterates the dictionary in its insertion order NEW,
INTERIM, OLD and assigns the key at the first index attaining the minimum, so
at the exact midpoint between the INTERIM and OLD constants (where both are
tied for the minimal difference, strictly below NEW) the code assigns
INTERIM while the documented priority assigns OLD. -/
theorem check_single_workchain_tiebreak_divergence :
    classify_constants_version angBohrTieInput = KkrConstantsVersion.INTERIM ∧
    classify_constants_version_claim angBohrTieInput = KkrConstantsVersion.OLD ∧
    pyAbs (angBohrTieInput - ANG_BOHR_KKR_INTERIM) =
      pyAbs (angBohrTieInput - ANG_BOHR_KKR_OLD) ∧
    pyAbs (angBohrTieInput - ANG_BOHR_KKR_INTERIM) <
      pyAbs (angBohrTieInput - ANG_BOHR_KKR_NEW) := by
  have hd1 : decide ((5999387 : ℚ) / 10 ^ 16 = 2321192 / 10 ^ 16) = false := by
    rw [decide_eq_false_iff_not]
    norm_num
  have hd2 : decide ((2321192 : ℚ) / 10 ^ 16 = 2321192 / 10 ^ 16) = true := by
    rw [decide_eq_true_eq]
  refine ⟨?_, ?_, ?_, ?_⟩
  · unfold classify_constants_version angBohrTable
    simp only [List.map, tie_diff_new, tie_diff_interim, tie_diff_old, tie_min,
      List.find?_cons, hd1, hd2, decide_True]
  · unfold classify_constants_version_claim
    simp only [List.map, tie_diff_new, tie_diff_interim, tie_diff_old, tie_min,
      List.find?_cons, hd1, hd2, decide_True]
  · rw [tie_diff_interim, tie_diff_old]
  · rw [tie_diff_interim, tie_diff_new]
    norm_num

/-- C8. Whatever the reverse-computed value, the classification result of
`check_single_workchain` is one of NEW, INTERIM, OLD: the argmin ranges over
the three-entry literal table only, so NEITHER and UNDECISIVE are never
assigned. -/
theorem check_single_workchain_version_among_three (v : ℚ) :
    classify_constants_version v ≠ KkrConstantsVersion.NEITHER ∧
    classify_constants_version v ≠ KkrConstantsVersion.UNDECISIVE := by
  rcases classify_mem_table v with h | h | h <;> rw [h] <;>
    exact ⟨by decide, by decide⟩

/-- C3. The reverse-computed `ANG_BOHR_KKR` constant equals the arithmetic
mean of the samples `ALATBASIS * x / y` over all matched pairs (BRAVAIS with
the structure cell, RBASIS with the structure positions), with zero samples
dropped before averaging and a pair with `x = 0` or `y = 0` contributing the
(dropped) sample `0.0`. -/
theorem recalculated_ANG_BOHR_KKR_eq_claim_mean (ALATBASIS : ℚ)
    (BRAVAIS cell RBASIS positions : List ℚ)
    (h1 : BRAVAIS.length = cell.length) (h2 : RBASIS.length = positions.length) :
    recalculated_ANG_BOHR_KKR ALATBASIS BRAVAIS cell RBASIS positions =
      claim_mean_valid_samples ALATBASIS (BRAVAIS.zip cell ++ RBASIS.zip positions) := by
  unfold recalculated_ANG_BOHR_KKR claim_mean_valid_samples drop_values_zero_nan
    reverse_calc_ANG_BOHR_KKR
  rw [List.map_append, List.filter_append, List.filter_append]
  rw [List.map_congr_left (fun p _ => reverse_calc_single_eq_claim_sample ALATBASIS p),
    List.map_congr_left (fun p _ => reverse_calc_single_eq_claim_sample ALATBASIS p)]

/-- Witness for C3 at a concrete input. -/
theorem recalculated_ANG_BOHR_KKR_eq_claim_mean_witness :
    recalculated_ANG_BOHR_KKR 2 [1, 2] [1, 4] [3] [6] =
      claim_mean_valid_samples 2
        (([1, 2] : List ℚ).zip [1, 4] ++ ([3] : List ℚ).zip [6]) :=
  recalculated_ANG_BOHR_KKR_eq_claim_mean 2 [1, 2] [1, 4] [3] [6] rfl rfl

/-- C9. The checker's result table holds at most one row per workchain UUID:
checking a workchain whose UUID is already an index entry leaves the table
unchanged, and a check never introduces a duplicate index entry. -/
theorem check_single_workchain_no_duplicate_rows (df : List (String × KkrCheckRow))
    (wc : KkrWorkchain) (zero_threshold : ℚ) (group_label : Option String)
    (hnodup : (df.map Prod.fst).Nodup) :
    ((check_single_workchain df wc zero_threshold group_label).map Prod.fst).Nodup ∧
    (wc.uuid ∈ df.map Prod.fst →
      check_single_workchain df wc zero_threshold group_label = df) := by
  unfold check_single_workchain
  by_cases hmem : wc.uuid ∈ df.map Prod.fst
  · rw [if_pos hmem]
    exact ⟨hnodup, fun _ => rfl⟩
  · rw [if_neg hmem]
    cases compute_check_row wc zero_threshold group_label with
    | none => exact ⟨hnodup, fun h => absurd h hmem⟩
    | some row =>
      refine ⟨?_, fun h => absurd h hmem⟩
      rw [List.map_append, List.nodup_append]
      refine ⟨hnodup, by simp, ?_⟩
      intro a ha hb
      simp only [List.map_cons, List.map_nil, List.mem_singleton] at hb
      subst hb
      exact hmem ha

/-- Witness for C9 at a concrete input. -/
theorem check_single_workchain_no_duplicate_rows_witness :
    ((check_single_workchain [("u", sampleRow)] sampleWc 0 none).map Prod.fst).Nodup ∧
    check_single_workchain [("u", sampleRow)] sampleWc 0 none = [("u", sampleRow)] := by
  have h := check_single_workchain_no_duplicate_rows [("u", sampleRow)] sampleWc 0 none
    (by simp)
  exact ⟨h.1, h.2 (by simp [sampleWc])⟩

/-- C7. `CifImporter.load_or_convert` raises `ValueError` if and only if the
existing structure group holds more than one conversion-settings Dict node;
with zero or one such node it proceeds, using the found node, the
argument-supplied node, or the default settings, in that priority order. -/
theorem load_or_create_conversion_settings_spec (struc_group : Option (List AiidaNode))
    (conversion_settings : Option AiidaNode) (default_settings : AiidaNode) :
    load_or_create_conversion_settings struc_group conversion_settings default_settings =
      conversion_settings_claim struc_group conversion_settings default_settings := by
  unfold load_or_create_conversion_settings conversion_settings_claim
    try_load_conversion_settings
  cases struc_group with
  | none => cases conversion_settings <;> simp
  | some nodes =>
    by_cases h : 1 < (nodes.filter (fun n => decide (n.ntype = AiidaNodeType.dictNode))).length
    · simp [h]
    · cases hh : (nodes.filter (fun n => decide (n.ntype = AiidaNodeType.dictNode))).head? with
      | none => cases conversion_settings <;> simp [h, hh]
      | some n => simp [h, hh]

/-- C10. On a config that has not been initialized, `get_options` returns the
empty list for every argument combination, leaving the group contents and the
computer list untouched and raising nothing. -/
theorem get_options_uninitialized (env : AiidaEnv) (cfg : OptionsConfigState)
    (group_options : List OptionsDictNode) (computers : List SchedComputer)
    (args : OptArgs) :
    get_options env { cfg with is_initialized := false } group_options computers args =
      Except.ok ([], group_options, computers) := by
  simp [get_options]


theorem pyMaxNat_mem : ∀ (l : List Nat) (m : Nat), pyMaxNat l = some m → m ∈ l
  | [], m, h => by simp [pyMaxNat] at h
  | [x], m, h => by
      simp only [pyMaxNat, Option.some.injEq] at h
      simp [← h]
  | x :: y :: t, m, h => by
      simp only [pyMaxNat, Option.map_eq_some'] at h
      obtain ⟨a, ha, hm⟩ := h
      have hmem := pyMaxNat_mem (y :: t) a ha
      rcases max_choice x a with hc | hc
      · rw [← hm, hc]; exact List.mem_cons_self _ _
      · rw [← hm, hc]; exact List.mem_cons_of_mem _ hmem

theorem pyMinNat_mem : ∀ (l : List Nat) (m : Nat), pyMinNat l = some m → m ∈ l
  | [], m, h => by simp [pyMinNat] at h
  | [x], m, h => by
      simp only [pyMinNat, Option.some.injEq] at h
      simp [← h]
  | x :: y :: t, m, h => by
      simp only [pyMinNat, Option.map_eq_some'] at h
      obtain ⟨a, ha, hm⟩ := h
      have hmem := pyMinNat_mem (y :: t) a ha
      rcases min_choice x a with hc | hc
      · rw [← hm, hc]; exact List.mem_cons_self _ _
      · rw [← hm, hc]; exact List.mem_cons_of_mem _ hmem

theorem queue_collect_tot_pos (options : List OptionsDictNode) (q : String) :
    ∀ n ∈ queue_collect_tot options q, n ≠ 0 := by
  intro n hn
  unfold queue_collect_tot at hn
  rw [List.mem_filterMap] at hn
  obtain ⟨opt, _, hf⟩ := hn
  by_cases hg : truthyAttr opt.attrs "withmpi" && truthyAttr opt.attrs "resources"
  · rw [if_pos hg] at hf
    cases hs : subAttrNat opt.attrs "resources" "tot_num_mpiprocs" with
    | none => rw [hs] at hf; exact absurd hf (by simp)
    | some t =>
      rw [hs] at hf
      change (if (t != 0) = true then some t else (none : Option Nat)) = some n at hf
      split_ifs at hf with ht
      injection hf with hf
      subst hf
      simpa using ht
  · rw [if_neg hg] at hf; exact absurd hf (by simp)

theorem queue_collect_mpiper_pos (options : List OptionsDictNode) (q : String) :
    ∀ n ∈ queue_collect_mpiper options q, n ≠ 0 := by
  intro n hn
  unfold queue_collect_mpiper at hn
  rw [List.mem_filterMap] at hn
  obtain ⟨opt, _, hf⟩ := hn
  by_cases hg : truthyAttr opt.attrs "withmpi" && truthyAttr opt.attrs "resources"
  · rw [if_pos hg] at hf
    cases hs : subAttrNat opt.attrs "resources" "num_mpiprocs_per_machine" with
    | none => rw [hs] at hf; exact absurd hf (by simp)
    | some t =>
      rw [hs] at hf
      change (if (t != 0) = true then some t else (none : Option Nat)) = some n at hf
      split_ifs at hf with ht
      injection hf with hf
      subst hf
      simpa using ht
  · rw [if_neg hg] at hf; exact absurd hf (by simp)

theorem determine_mpiprocs_amended (options : List OptionsDictNode)
    (queue_name : Option String) (computers : List SchedComputer)
    (htot : 0 ∉ global_collect_tot options)
    (hmpi : 0 ∉ global_collect_mpiper options) :
    determine_mpiprocs options queue_name computers =
      Except.ok (mpi_chain_amended options queue_name) := by
  have hgt : ((pyMinNat (global_collect_tot options)).getD 1) ≠ 0 := by
    cases h : pyMinNat (global_collect_tot options) with
    | none => simp
    | some m =>
      simp only [Option.getD_some]
      intro h0
      exact htot (h0 ▸ pyMinNat_mem _ m h)
  have hgm : ((pyMinNat (global_collect_mpiper options)).getD 1) ≠ 0 := by
    cases h : pyMinNat (global_collect_mpiper options) with
    | none => simp
    | some m =>
      simp only [Option.getD_some]
      intro h0
      exact hmpi (h0 ▸ pyMinNat_mem _ m h)
  by_cases hq : truthyOptS queue_name = true
  · rcases hqt : pyMaxNat (queue_collect_tot options (queue_name.getD "")) with _ | t
    · rcases hqm : pyMaxNat (queue_collect_mpiper options (queue_name.getD "")) with _ | m
      · -- both queue maxima absent: global stage
        simp only [determine_mpiprocs, mpi_chain_amended, hq, if_true, hqt, hqm, truthyN,
          Bool.not_false, Bool.and_self, if_pos, hgt, hgm]
        simp [truthyN, hgt, hgm]
      · -- mpiper max present
        have hm : m ≠ 0 := queue_collect_mpiper_pos _ _ m (pyMaxNat_mem _ m hqm)
        simp only [determine_mpiprocs, mpi_chain_amended, hq, if_true, hqt, hqm]
        simp [truthyN, hm]
    · -- tot max present
      have ht : t ≠ 0 := queue_collect_tot_pos _ _ t (pyMaxNat_mem _ t hqt)
      rcases hqm : pyMaxNat (queue_collect_mpiper options (queue_name.getD "")) with _ | m
      · simp only [determine_mpiprocs, mpi_chain_amended, hq, if_true, hqt, hqm]
        simp [truthyN, ht]
      · simp only [determine_mpiprocs, mpi_chain_amended, hq, if_true, hqt, hqm]
        simp [truthyN, ht]
  · simp only [determine_mpiprocs, mpi_chain_amended, hq]
    simp [truthyN, hgt, hgm, hq]

theorem determine_mpiprocs_amended_witness :
    determine_mpiprocs [] none [c4Computer] = Except.ok (mpi_chain_amended [] none) :=
  determine_mpiprocs_amended [] none [c4Computer] (by simp [global_collect_tot])
    (by simp [global_collect_mpiper])

theorem determine_mpiprocs_chain_counterexample :
    determine_mpiprocs [] none [c4Computer] = Except.ok (some 1, some 1) ∧
    mpi_chain_claim [] none [c4Computer] = (none, some 24) ∧
    mpi_resources_value (some 1, some 1) ≠ mpi_resources_value (none, some 24) := by
  refine ⟨rfl, rfl, by decide⟩


theorem find_group_match_some (groups : List (List OptionsDictNode))
    (o n : OptionsDictNode) (h : find_group_match groups o = some n) :
    ∃ g ∈ groups, n ∈ g ∧ n.is_stored = true ∧ n.attrs = o.attrs := by
  induction groups with
  | nil => simp [find_group_match] at h
  | cons g rest ih =>
    unfold find_group_match at h
    cases hg : (g.filter (fun x => x.is_stored)).find?
        (fun x => decide (x.attrs = o.attrs)) with
    | some m =>
      rw [hg] at h
      injection h with h
      subst h
      have hmem := List.mem_of_find?_eq_some hg
      have hpred := List.find?_some hg
      rw [List.mem_filter] at hmem
      exact ⟨g, List.mem_cons_self _ _, hmem.1, hmem.2, of_decide_eq_true hpred⟩
    | none =>
      rw [hg] at h
      obtain ⟨g2, hg2, hrest⟩ := ih h
      exact ⟨g2, List.mem_cons_of_mem _ hg2, hrest⟩

theorem find_group_match_none (groups : List (List OptionsDictNode))
    (o : OptionsDictNode) (h : find_group_match groups o = none) :
    ∀ g ∈ groups, ∀ n ∈ g, n.is_stored = true → n.attrs ≠ o.attrs := by
  induction groups with
  | nil => simp
  | cons g rest ih =>
    unfold find_group_match at h
    cases hg : (g.filter (fun x => x.is_stored)).find?
        (fun x => decide (x.attrs = o.attrs)) with
    | some m => rw [hg] at h; exact absurd h (by simp)
    | none =>
      rw [hg] at h
      intro g2 hg2 n hn hst
      rcases List.mem_cons.mp hg2 with rfl | hg2r
      · have := List.find?_eq_none.mp hg n (List.mem_filter.mpr ⟨hn, hst⟩)
        simpa using this
      · exact ih h g2 hg2r n hn hst

theorem init_default_options_fst_length (options : List OptionsDictNode)
    (groups : List (List OptionsDictNode)) :
    (init_default_options options groups).1.length = options.length := by
  unfold init_default_options store_default_options load_default_options
  simp

/-- C5. Step 2 of `initialize` resolves each default option record by
attribute equality: either it is replaced by an already-stored record of one
of the config's groups with an equal attribute map (load), or, when no group
member with equal attributes exists, it is stored and added to all of the
config's groups (create). -/
theorem init_default_options_load_or_create (options : List OptionsDictNode)
    (groups : List (List OptionsDictNode))
    (hunstored : ∀ o ∈ options, o.is_stored = false)
    (i : Nat) (hi : i < options.length)
    (hi2 : i < (init_default_options options groups).1.length) :
    (∃ g ∈ groups, ∃ n ∈ g, n.is_stored = true ∧
        n.attrs = (options.get ⟨i, hi⟩).attrs ∧
        ((init_default_options options groups).1.get ⟨i, hi2⟩).nid = n.nid ∧
        ((init_default_options options groups).1.get ⟨i, hi2⟩).attrs =
          (options.get ⟨i, hi⟩).attrs ∧
        ((init_default_options options groups).1.get ⟨i, hi2⟩).is_stored = true) ∨
    ((∀ g ∈ groups, ∀ n ∈ g, n.is_stored = true →
        n.attrs ≠ (options.get ⟨i, hi⟩).attrs) ∧
      (init_default_options options groups).1.get ⟨i, hi2⟩ =
        { options.get ⟨i, hi⟩ with is_stored := true } ∧
      ∀ g2 ∈ (init_default_options options groups).2,
        (init_default_options options groups).1.get ⟨i, hi2⟩ ∈ g2) := by
  have hlen : (load_default_options options groups).length = options.length := by
    unfold load_default_options; simp
  set oi := options.get ⟨i, hi⟩ with hoi
  have hload : (load_default_options options groups).get ⟨i, by rw [hlen]; exact hi⟩ =
      (match find_group_match groups oi with
       | some n => if n.label.isEmpty then { n with label := oi.label } else n
       | none => oi) := by
    unfold load_default_options
    rw [List.get_map]
  have hresult : (init_default_options options groups).1.get ⟨i, hi2⟩ =
      (fun o => if o.is_stored then o else { o with is_stored := true })
        ((load_default_options options groups).get ⟨i, by rw [hlen]; exact hi⟩) := by
    unfold init_default_options store_default_options
    exact List.get_map _
  cases hfind : find_group_match groups oi with
  | some n =>
    obtain ⟨g, hg, hng, hst, hattrs⟩ := find_group_match_some groups oi n hfind
    left
    refine ⟨g, hg, n, hng, hst, hattrs, ?_, ?_, ?_⟩
    all_goals
      rw [hresult, hload, hfind]
      by_cases hl : n.label.isEmpty <;> simp [hl, hst, hattrs]
  | none =>
    right
    have hstep : (init_default_options options groups).1.get ⟨i, hi2⟩ =
        { oi with is_stored := true } := by
      rw [hresult, hload, hfind]
      have : oi.is_stored = false := hunstored oi (List.get_mem _ _ _)
      simp [this]
    refine ⟨find_group_match_none groups oi hfind, hstep, ?_⟩
    intro g2 hg2
    unfold init_default_options store_default_options at hg2
    simp only [List.mem_map] at hg2
    obtain ⟨g0, _, hg0⟩ := hg2
    rw [← hg0, hstep]
    refine List.mem_append_right _ ?_
    rw [List.mem_map]
    refine ⟨(load_default_options options groups).get ⟨i, by rw [hlen]; exact hi⟩, ?_, ?_⟩
    · rw [List.mem_filter]
      refine ⟨List.get_mem _ _ _, ?_⟩
      rw [hload, hfind]
      simp [hunstored oi (List.get_mem _ _ _)]
    · rw [hload, hfind]

/-- Witness for C5 at a concrete input (the create branch: empty group, one
unstored default record). -/
theorem init_default_options_load_or_create_witness :
    (∃ g ∈ [([] : List OptionsDictNode)], ∃ n ∈ g, n.is_stored = true ∧
        n.attrs = (([sampleDefaultOption].get ⟨0, by decide⟩)).attrs ∧
        ((init_default_options [sampleDefaultOption] [[]]).1.get ⟨0, by decide⟩).nid = n.nid ∧
        ((init_default_options [sampleDefaultOption] [[]]).1.get ⟨0, by decide⟩).attrs =
          (([sampleDefaultOption].get ⟨0, by decide⟩)).attrs ∧
        ((init_default_options [sampleDefaultOption] [[]]).1.get ⟨0, by decide⟩).is_stored = true) ∨
    ((∀ g ∈ [([] : List OptionsDictNode)], ∀ n ∈ g, n.is_stored = true →
        n.attrs ≠ (([sampleDefaultOption].get ⟨0, by decide⟩)).attrs) ∧
      (init_default_options [sampleDefaultOption] [[]]).1.get ⟨0, by decide⟩ =
        { [sampleDefaultOption].get ⟨0, by decide⟩ with is_stored := true } ∧
      ∀ g2 ∈ (init_default_options [sampleDefaultOption] [[]]).2,
        (init_default_options [sampleDefaultOption] [[]]).1.get ⟨0, by decide⟩ ∈ g2) :=
  init_default_options_load_or_create [sampleDefaultOption] [[]]
    (by intro o ho; simp at ho; rw [ho]; rfl) 0 (by decide) (by decide)


theorem own_computer_queues_empty (cs : List SchedComputer)
    (h : ∀ c ∈ cs, c.queues = []) : (own_computer_queues cs).1 = [] := by
  induction cs with
  | nil => rfl
  | cons c rest ih =>
    unfold own_computer_queues
    have hc : c.queues = [] := h c (List.mem_cons_self _ _)
    by_cases hcomp : c.compatible = true
    · simp only [hcomp, if_true, hc, List.isEmpty_nil, Bool.not_true, Bool.false_eq_true,
        if_false]
      exact ih (fun x hx => h x (List.mem_cons_of_mem _ hx))
    · simp only [Bool.not_eq_true] at hcomp
      simp only [hcomp, Bool.false_eq_true, if_false]
      exact ih (fun x hx => h x (List.mem_cons_of_mem _ hx))

theorem word_scan_mem (env : AiidaEnv) (ws : List String)
    (c : SchedComputer) (h : c ∈ word_scan env ws) : ∃ s, c ∈ env.get_computers s := by
  induction ws with
  | nil => simp [word_scan] at h
  | cons w rest ih =>
    unfold word_scan at h
    by_cases hw : (env.get_computers w).isEmpty
    · simp only [hw, Bool.not_true, Bool.false_eq_true, if_false] at h
      exact ih h
    · simp only [hw, Bool.not_false, if_true] at h
      exact ⟨w, h⟩

theorem find_computers_by_pattern_mem (env : AiidaEnv) (cfg_name : String)
    (computer_name : Option String) (c : SchedComputer)
    (h : c ∈ find_computers_by_pattern env cfg_name computer_name) :
    ∃ s, c ∈ env.get_computers s := by
  simp only [find_computers_by_pattern] at h
  by_cases hp : ((env.get_computers
      (if truthyOptS computer_name then computer_name.getD "" else cfg_name)).isEmpty)
  · rw [hp] at h
    simp only [Bool.not_true, Bool.false_eq_true, if_false] at h
    exact word_scan_mem env _ c h
  · simp only [Bool.not_eq_true] at hp
    rw [hp] at h
    simp only [Bool.not_false, if_true] at h
    exact ⟨_, h⟩

theorem db_computer_scan_no_queues (l : List SchedComputer)
    (h : ∀ c ∈ l, c.queues = []) :
    db_computer_scan l = Except.ok none ∨
    db_computer_scan l = Except.error PyErr.notImplementedError := by
  induction l with
  | nil => exact Or.inl rfl
  | cons c rest ih =>
    unfold db_computer_scan
    by_cases hcomp : c.compatible = true
    · have hc : c.queues = [] := h c (List.mem_cons_self _ _)
      simp only [hcomp, Bool.not_true, Bool.false_eq_true, if_false, hc,
        List.isEmpty_nil]
      exact ih (fun x hx => h x (List.mem_cons_of_mem _ hx))
    · simp only [Bool.not_eq_true] at hcomp
      simp only [hcomp, Bool.not_false, if_true]
      simp

theorem resolve_queue_name_error_of_no_queues (env : AiidaEnv) (cfg_name : String)
    (computer_name queue_name : Option String) (cs : List SchedComputer)
    (hcs : ∀ c ∈ cs, c.queues = [])
    (henv : ∀ s, ∀ c ∈ env.get_computers s, c.queues = []) :
    ∃ e, resolve_queue_name env cfg_name computer_name queue_name cs =
      Except.error e := by
  simp only [resolve_queue_name]
  rw [own_computer_queues_empty cs hcs]
  simp only [List.isEmpty_nil, Bool.not_true, Bool.false_eq_true, if_false]
  by_cases hdb : (find_computers_by_pattern env cfg_name computer_name).isEmpty
  · rw [if_pos hdb]
    exact ⟨PyErr.notExistent, rfl⟩
  · rw [if_neg hdb]
    have hall : ∀ c ∈ find_computers_by_pattern env cfg_name computer_name,
        c.queues = [] := by
      intro c hc
      obtain ⟨s, hs⟩ := find_computers_by_pattern_mem env cfg_name computer_name c hc
      exact henv s c hs
    rcases db_computer_scan_no_queues _ hall with hscan | hscan
    · rw [hscan]
      exact ⟨PyErr.valueError, rfl⟩
    · rw [hscan]
      exact ⟨PyErr.notImplementedError, rfl⟩

theorem resolve_mandatory_error_account (env : AiidaEnv) (cfg_name : String)
    (computer_name account : Option String) :
    ∀ (mandatory : List String) (queue_name : Option String)
      (cs : List SchedComputer),
      "account" ∈ mandatory → truthyOptS account = false →
      ∃ e, resolve_mandatory env cfg_name computer_name account mandatory queue_name cs =
        Except.error e
  | [], _, _, hmem, _ => by simp at hmem
  | key :: rest, queue_name, cs, hmem, hacct => by
    unfold resolve_mandatory
    by_cases hq : key = "queue_name"
    · rw [if_pos hq]
      cases hr : resolve_queue_name env cfg_name computer_name queue_name cs with
      | error e => exact ⟨e, rfl⟩
      | ok out =>
        have hmem2 : "account" ∈ rest := by
          rcases List.mem_cons.mp hmem with h | h
          · rw [hq] at h; simp at h
          · exact h
        obtain ⟨e, he⟩ := resolve_mandatory_error_account env cfg_name computer_name
          account rest out.1 out.2 hmem2 hacct
        exact ⟨e, he⟩
    · rw [if_neg hq]
      by_cases ha : key = "account"
      · rw [if_pos ha, hacct]
        simp only [Bool.false_eq_true, if_false]
        exact ⟨PyErr.notImplementedError, rfl⟩
      · rw [if_neg ha]
        have hmem2 : "account" ∈ rest := by
          rcases List.mem_cons.mp hmem with h | h
          · exact absurd h.symm ha
          · exact h
        exact resolve_mandatory_error_account env cfg_name computer_name account rest
          queue_name cs hmem2 hacct

theorem resolve_mandatory_error_queue (env : AiidaEnv) (cfg_name : String)
    (computer_name account : Option String)
    (henv : ∀ s, ∀ c ∈ env.get_computers s, c.queues = []) :
    ∀ (mandatory : List String) (queue_name : Option String)
      (cs : List SchedComputer),
      "queue_name" ∈ mandatory → (∀ c ∈ cs, c.queues = []) →
      ∃ e, resolve_mandatory env cfg_name computer_name account mandatory queue_name cs =
        Except.error e
  | [], _, _, hmem, _ => by simp at hmem
  | key :: rest, queue_name, cs, hmem, hcs => by
    unfold resolve_mandatory
    by_cases hq : key = "queue_name"
    · rw [if_pos hq]
      obtain ⟨e, he⟩ := resolve_queue_name_error_of_no_queues env cfg_name computer_name
        queue_name cs hcs henv
      rw [he]
      exact ⟨e, rfl⟩
    · rw [if_neg hq]
      have hmem2 : "queue_name" ∈ rest := by
        rcases List.mem_cons.mp hmem with h | h
        · exact absurd h.symm hq
        · exact h
      by_cases ha : key = "account"
      · rw [if_pos ha]
        by_cases hacct : truthyOptS account = true
        · rw [hacct]
          simp only [if_true]
          exact resolve_mandatory_error_queue env cfg_name computer_name account henv
            rest queue_name cs hmem2 hcs
        · simp only [Bool.not_eq_true] at hacct
          rw [hacct]
          simp only [Bool.false_eq_true, if_false]
          exact ⟨PyErr.notImplementedError, rfl⟩
      · rw [if_neg ha]
        exact resolve_mandatory_error_queue env cfg_name computer_name account henv
          rest queue_name cs hmem2 hcs

/-- C6. When a field listed as mandatory in the config's query configuration
cannot be supplied or determined, `get_options` raises instead of silently
returning: a mandatory `account` that is not supplied raises, and a mandatory
`queue_name` that is not supplied while no computer reports any queue raises
(whether the failure is the absence of matching computers or the absence of
queues). -/
theorem get_options_mandatory_raises (env : AiidaEnv) (cfg : OptionsConfigState)
    (group_options : List OptionsDictNode) (computers : List SchedComputer)
    (args : OptArgs) (hinit : cfg.is_initialized = true) :
    (("account" ∈ cfg.mandatory ∧ truthyOptS args.account = false) →
      ∃ e, get_options env cfg group_options computers args = Except.error e) ∧
    (("queue_name" ∈ cfg.mandatory ∧ (∀ c ∈ computers, c.queues = []) ∧
        (∀ s, ∀ c ∈ env.get_computers s, c.queues = [])) →
      ∃ e, get_options env cfg group_options computers args = Except.error e) := by
  constructor
  · rintro ⟨hmem, hacct⟩
    obtain ⟨e, he⟩ := resolve_mandatory_error_account env cfg.name args.computer_name
      args.account cfg.mandatory args.queue_name computers hmem hacct
    refine ⟨e, ?_⟩
    unfold get_options
    rw [hinit]
    simp only [Bool.not_true, Bool.false_eq_true, if_false]
    rw [he]
  · rintro ⟨hmem, hcs, henv⟩
    obtain ⟨e, he⟩ := resolve_mandatory_error_queue env cfg.name args.computer_name
      args.account henv cfg.mandatory args.queue_name computers hmem hcs
    refine ⟨e, ?_⟩
    unfold get_options
    rw [hinit]
    simp only [Bool.not_true, Bool.false_eq_true, if_false]
    rw [he]

/-- Witness for C6 at a concrete input. -/
theorem get_options_mandatory_raises_witness :
    (∃ e, get_options emptyEnv mandatoryConfig [] [] {} = Except.error e) ∧
    (∃ e, get_options emptyEnv mandatoryConfig [] [] {} = Except.error e) := by
  have h := get_options_mandatory_raises emptyEnv mandatoryConfig [] [] {} rfl
  exact ⟨h.1 ⟨by simp [mandatoryConfig], rfl⟩,
    h.2 ⟨by simp [mandatoryConfig], by simp, by simp [emptyEnv]⟩⟩


theorem getAttr_setAttr_self {α : Type} (d : List (String × α)) (k : String) (v : α) :
    getAttr (setAttr d k v) k = some v := by
  induction d with
  | nil => simp [setAttr, getAttr]
  | cons kv rest ih =>
    unfold setAttr
    by_cases h : kv.1 = k
    · rw [if_pos h]
      unfold getAttr
      rw [if_pos rfl]
    · rw [if_neg h]
      unfold getAttr
      rw [if_neg h]
      exact ih

theorem getAttr_setAttr_ne {α : Type} (d : List (String × α)) (k k2 : String) (v : α)
    (h : k2 ≠ k) : getAttr (setAttr d k v) k2 = getAttr d k2 := by
  induction d with
  | nil =>
    unfold setAttr getAttr
    rw [if_neg (fun hh => h hh.symm)]
    rfl
  | cons kv rest ih =>
    unfold setAttr
    by_cases hk : kv.1 = k
    · rw [if_pos hk]
      unfold getAttr
      rw [if_neg (fun hh => h hh.symm), if_neg (by rw [hk]; exact fun hh => h hh.symm)]
    · rw [if_neg hk]
      unfold getAttr
      by_cases h2 : kv.1 = k2
      · rw [if_pos h2, if_pos h2]
      · rw [if_neg h2, if_neg h2]
        exact ih

theorem setAttr_ne_nil {α : Type} (d : List (String × α)) (k : String) (v : α) :
    setAttr d k v ≠ [] := by
  cases d with
  | nil => simp [setAttr]
  | cons kv rest =>
    unfold setAttr
    by_cases h : kv.1 = k <;> simp [h]

theorem nodup_keys_head {α : Type} (kv : String × α) (rest : List (String × α))
    (h : ((kv :: rest).map Prod.fst).Nodup) :
    kv.1 ∉ rest.map Prod.fst ∧ (rest.map Prod.fst).Nodup := by
  rw [List.map_cons] at h
  exact ⟨(List.nodup_cons.mp h).1, (List.nodup_cons.mp h).2⟩

theorem getAttr_of_mem_nodup {α : Type} :
    ∀ (d : List (String × α)) (k : String) (v : α),
      (k, v) ∈ d → (d.map Prod.fst).Nodup → getAttr d k = some v
  | [], k, v, hmem, _ => by simp at hmem
  | kv :: rest, k, v, hmem, hnodup => by
    unfold getAttr
    rcases List.mem_cons.mp hmem with heq | hm
    · rw [← heq]
      rw [if_pos rfl]
    · by_cases h : kv.1 = k
      · exfalso
        have hk : k ∈ rest.map Prod.fst := List.mem_map.mpr ⟨(k, v), hm, rfl⟩
        exact (nodup_keys_head kv rest hnodup).1 (h ▸ hk)
      · rw [if_neg h]
        exact getAttr_of_mem_nodup rest k v hm (nodup_keys_head kv rest hnodup).2

theorem mergeSubDict_lookup_not_mem :
    ∀ (sub ex : List (String × PyPrim)) (k : String),
      k ∉ sub.map Prod.fst → getAttr (mergeSubDict ex sub) k = getAttr ex k
  | [], _, _, _ => rfl
  | sv :: rest, ex, k, h => by
    have h1 : k ∉ rest.map Prod.fst := fun hh => h (by simp [hh])
    have h2 : k ≠ sv.1 := fun hh => h (by simp [hh])
    show getAttr (mergeSubDict (setAttr ex sv.1 sv.2) rest) k = getAttr ex k
    rw [mergeSubDict_lookup_not_mem rest (setAttr ex sv.1 sv.2) k h1]
    exact getAttr_setAttr_ne _ _ _ _ h2

theorem mergeSubDict_lookup_mem :
    ∀ (sub ex : List (String × PyPrim)) (k : String) (v : PyPrim),
      (k, v) ∈ sub → (sub.map Prod.fst).Nodup →
      getAttr (mergeSubDict ex sub) k = some v
  | [], _, _, _, hmem, _ => by simp at hmem
  | sv :: rest, ex, k, v, hmem, hnodup => by
    show getAttr (mergeSubDict (setAttr ex sv.1 sv.2) rest) k = some v
    rcases List.mem_cons.mp hmem with heq | hm
    · subst heq
      have hk : k ∉ rest.map Prod.fst := (nodup_keys_head _ rest hnodup).1
      rw [mergeSubDict_lookup_not_mem rest _ k hk, getAttr_setAttr_self]
    · exact mergeSubDict_lookup_mem rest (setAttr ex sv.1 sv.2) k v hm
        (nodup_keys_head sv rest hnodup).2

theorem mergeSubDict_ne_nil :
    ∀ (sub ex : List (String × PyPrim)), ex ≠ [] → mergeSubDict ex sub ≠ []
  | [], _, h => h
  | sv :: rest, ex, _ => by
    show mergeSubDict (setAttr ex sv.1 sv.2) rest ≠ []
    exact mergeSubDict_ne_nil rest _ (setAttr_ne_nil _ _ _)

theorem dict_truthy (D : List (String × PyPrim)) (h : D ≠ []) :
    (PyVal.dict D).truthy = true := by
  unfold PyVal.truthy
  cases D with
  | nil => exact absurd rfl h
  | cons a l => simp

theorem mergeKwarg_preserve (d : List (String × PyVal)) (k1 : String) (v1 : PyVal)
    (d2 : List (String × PyVal)) (k : String) (hne : k ≠ k1)
    (hok : mergeKwarg d (k1, v1) = Except.ok d2) : getAttr d2 k = getAttr d k := by
  cases v1 with
  | dict sub =>
    unfold mergeKwarg at hok
    cases hg : getAttr d k1 with
    | some v =>
      simp only [hg] at hok
      by_cases ht : v.truthy = true
      · rw [if_pos ht] at hok
        cases v with
        | dict ex =>
          simp only [Except.ok.injEq] at hok
          rw [← hok]
          exact getAttr_setAttr_ne _ _ _ _ hne
        | prim p => exact absurd hok (by simp)
        | list l => exact absurd hok (by simp)
      · rw [if_neg ht] at hok
        simp only [Except.ok.injEq] at hok
        rw [← hok]
        exact getAttr_setAttr_ne _ _ _ _ hne
    | none =>
      simp only [hg, Except.ok.injEq] at hok
      rw [← hok]
      exact getAttr_setAttr_ne _ _ _ _ hne
  | prim p =>
    unfold mergeKwarg at hok
    simp only [Except.ok.injEq] at hok
    rw [← hok]
    exact getAttr_setAttr_ne _ _ _ _ hne
  | list l =>
    unfold mergeKwarg at hok
    simp only [Except.ok.injEq] at hok
    rw [← hok]
    exact getAttr_setAttr_ne _ _ _ _ hne

theorem mergeKwargs_preserve :
    ∀ (kws : List (String × PyVal)) (d d2 : List (String × PyVal)) (k : String),
      k ∉ kws.map Prod.fst → mergeKwargs d kws = Except.ok d2 →
      getAttr d2 k = getAttr d k
  | [], d, d2, k, _, hok => by
    unfold mergeKwargs at hok
    simp only [Except.ok.injEq] at hok
    rw [← hok]
  | kv :: rest, d, d2, k, hnmem, hok => by
    unfold mergeKwargs at hok
    cases hm : mergeKwarg d kv with
    | error e =>
      simp only [hm] at hok
      exact absurd hok (by simp)
    | ok d1 =>
      simp only [hm] at hok
      have h1 : k ∉ rest.map Prod.fst := fun hh => hnmem (by simp [hh])
      have h2 : k ≠ kv.1 := fun hh => hnmem (by simp [hh])
      rw [mergeKwargs_preserve rest d1 d2 k h1 hok]
      exact mergeKwarg_preserve d kv.1 kv.2 d1 k h2 hm

theorem mergeKwargs_lookup_nondict :
    ∀ (kws : List (String × PyVal)) (d d2 : List (String × PyVal)) (k : String)
      (v : PyVal),
      (kws.map Prod.fst).Nodup → (k, v) ∈ kws → v.isDict = false →
      mergeKwargs d kws = Except.ok d2 → getAttr d2 k = some v
  | [], _, _, _, _, _, hmem, _, _ => by simp at hmem
  | kv :: rest, d, d2, k, v, hnodup, hmem, hnd, hok => by
    unfold mergeKwargs at hok
    cases hm : mergeKwarg d kv with
    | error e =>
      simp only [hm] at hok
      exact absurd hok (by simp)
    | ok d1 =>
      simp only [hm] at hok
      rcases List.mem_cons.mp hmem with heq | hm2
      · have hk : k ∉ rest.map Prod.fst := by
          have := (nodup_keys_head kv rest hnodup).1
          rw [← heq] at this
          exact this
        subst heq
        have hd1 : d1 = setAttr d k v := by
          unfold mergeKwarg at hm
          cases v with
          | dict sub => exact absurd hnd (by simp [PyVal.isDict])
          | prim p =>
            simp only [Except.ok.injEq] at hm
            exact hm.symm
          | list l =>
            simp only [Except.ok.injEq] at hm
            exact hm.symm
        rw [mergeKwargs_preserve rest d1 d2 k hk hok, hd1, getAttr_setAttr_self]
      · exact mergeKwargs_lookup_nondict rest d1 d2 k v
          (nodup_keys_head kv rest hnodup).2 hm2 hnd hok

theorem mergeKwargs_lookup_dict :
    ∀ (kws : List (String × PyVal)) (d d2 : List (String × PyVal)) (k : String)
      (sub : List (String × PyPrim)) (sk : String) (sv : PyPrim),
      (kws.map Prod.fst).Nodup → (k, PyVal.dict sub) ∈ kws →
      (sub.map Prod.fst).Nodup → (sk, sv) ∈ sub →
      mergeKwargs d kws = Except.ok d2 →
      ∃ D, getAttr d2 k = some (PyVal.dict D) ∧ getAttr D sk = some sv
  | [], _, _, _, _, _, _, _, hmem, _, _, _ => by simp at hmem
  | kv :: rest, d, d2, k, sub, sk, sv, hnodup, hmem, hsubnodup, hsv, hok => by
    unfold mergeKwargs at hok
    cases hm : mergeKwarg d kv with
    | error e =>
      simp only [hm] at hok
      exact absurd hok (by simp)
    | ok d1 =>
      simp only [hm] at hok
      rcases List.mem_cons.mp hmem with heq | hm2
      · have hk : k ∉ rest.map Prod.fst := by
          have := (nodup_keys_head kv rest hnodup).1
          rw [← heq] at this
          exact this
        subst heq
        unfold mergeKwarg at hm
        have hpres := mergeKwargs_preserve rest d1 d2 k hk hok
        cases hg : getAttr d k with
        | some v =>
          simp only [hg] at hm
          by_cases ht : v.truthy = true
          · rw [if_pos ht] at hm
            cases v with
            | dict ex =>
              simp only [Except.ok.injEq] at hm
              refine ⟨mergeSubDict ex sub, ?_, ?_⟩
              · rw [hpres, ← hm, getAttr_setAttr_self]
              · exact mergeSubDict_lookup_mem sub ex sk sv hsv hsubnodup
            | prim p => exact absurd hm (by simp)
            | list l => exact absurd hm (by simp)
          · rw [if_neg ht] at hm
            simp only [Except.ok.injEq] at hm
            refine ⟨sub, ?_, ?_⟩
            · rw [hpres, ← hm, getAttr_setAttr_self]
            · exact getAttr_of_mem_nodup sub sk sv hsv hsubnodup
        | none =>
          simp only [hg, Except.ok.injEq] at hm
          refine ⟨sub, ?_, ?_⟩
          · rw [hpres, ← hm, getAttr_setAttr_self]
          · exact getAttr_of_mem_nodup sub sk sv hsv hsubnodup
      · exact mergeKwargs_lookup_dict rest d1 d2 k sub sk sv
          (nodup_keys_head kv rest hnodup).2 hm2 hsubnodup hsv hok

theorem mergeKwargs_resources :
    ∀ (kws : List (String × PyVal)) (d d2 : List (String × PyVal)),
      (∀ kv ∈ kws, kv.1 = "resources" → kv.2.isDict = true) →
      (∃ D, getAttr d "resources" = some (PyVal.dict D) ∧ D ≠ []) →
      mergeKwargs d kws = Except.ok d2 →
      ∃ D, getAttr d2 "resources" = some (PyVal.dict D) ∧ D ≠ []
  | [], d, d2, _, hbase, hok => by
    unfold mergeKwargs at hok
    simp only [Except.ok.injEq] at hok
    rw [← hok]
    exact hbase
  | kv :: rest, d, d2, hres, hbase, hok => by
    unfold mergeKwargs at hok
    cases hm : mergeKwarg d kv with
    | error e =>
      simp only [hm] at hok
      exact absurd hok (by simp)
    | ok d1 =>
      simp only [hm] at hok
      have hres2 : ∀ x ∈ rest, x.1 = "resources" → x.2.isDict = true :=
        fun x hx => hres x (List.mem_cons_of_mem _ hx)
      refine mergeKwargs_resources rest d1 d2 hres2 ?_ hok
      obtain ⟨D, hD, hDne⟩ := hbase
      by_cases hk : kv.1 = "resources"
      · have hdict : kv.2.isDict = true := hres kv (List.mem_cons_self _ _) hk
        obtain ⟨k1, v1⟩ := kv
        simp only at hk
        subst hk
        cases hv : v1 with
        | dict sub =>
          subst hv
          unfold mergeKwarg at hm
          simp only [hD] at hm
          rw [if_pos (dict_truthy D hDne)] at hm
          simp only [Except.ok.injEq] at hm
          refine ⟨mergeSubDict D sub, ?_, mergeSubDict_ne_nil sub D hDne⟩
          rw [← hm, getAttr_setAttr_self]
        | prim p =>
          rw [hv] at hdict
          exact absurd hdict (by simp [PyVal.isDict])
        | list l =>
          rw [hv] at hdict
          exact absurd hdict (by simp [PyVal.isDict])
      · refine ⟨D, ?_, hDne⟩
        rw [mergeKwarg_preserve d kv.1 kv.2 d1 "resources" (fun hh => hk hh.symm) hm]
        exact hD


theorem validateKwargs_not_explicit (kwargs : List (String × PyVal)) :
    ∀ kv ∈ validateKwargs kwargs, kv.1 ∉ explicit_argument_keywords := by
  intro kv hkv
  unfold validateKwargs at hkv
  rw [List.mem_filter] at hkv
  have h1 := hkv.1
  rw [List.mem_filter] at h1
  exact (of_decide_eq_true h1.2).2

theorem validateKwargs_resources_dict (kwargs : List (String × PyVal)) :
    ∀ kv ∈ validateKwargs kwargs, kv.1 = "resources" → kv.2.isDict = true := by
  intro kv hkv hk
  unfold validateKwargs at hkv
  rw [List.mem_filter] at hkv
  have h2 := hkv.2
  rw [Bool.not_eq_true', Bool.and_eq_false_iff] at h2
  rcases h2 with h2 | h2
  · exact absurd hk (by simpa using h2)
  · simpa using h2

theorem key_not_mem_of_not_explicit (kws : List (String × PyVal)) (k : String)
    (hexp : ∀ kv ∈ kws, kv.1 ∉ explicit_argument_keywords)
    (hk : k ∈ explicit_argument_keywords) : k ∉ kws.map Prod.fst := by
  intro hmem
  rw [List.mem_map] at hmem
  obtain ⟨kv, hkv, hfst⟩ := hmem
  exact hexp kv hkv (hfst ▸ hk)

theorem isPrefixOf_append (l t : List Char) : l.isPrefixOf (l ++ t) = true := by
  induction l with
  | nil => simp [List.isPrefixOf]
  | cons c cs ih => simp [List.isPrefixOf, ih]

theorem listHasInfix_suffix (pre pat : List Char) :
    listHasInfix pat (pre ++ pat) = true := by
  induction pre with
  | nil =>
    cases pat with
    | nil => rfl
    | cons c cs =>
      unfold listHasInfix
      rw [List.nil_append]
      have : (c :: cs).isPrefixOf (c :: cs) = true := by
        have := isPrefixOf_append (c :: cs) []
        rwa [List.append_nil] at this
      simp [this]
  | cons c rest ih =>
    unfold listHasInfix
    rw [List.cons_append]
    simp [ih]

theorem strContains_append (s1 s2 : String) : strContains (s1 ++ s2) s2 = true := by
  unfold strContains
  have hdata : (s1 ++ s2).toList = s1.toList ++ s2.toList := by
    simp [String.toList, String.data_append]
  rw [hdata]
  exact listHasInfix_suffix _ _

theorem create_base_queue (q acct : Option String) (w : Bool)
    (hq : truthyOptS q = true) :
    getAttr (create_base_attrs q acct w) "queue_name" =
      some (PyVal.prim (PyPrim.str (q.getD ""))) := by
  simp only [create_base_attrs]
  rw [getAttr_setAttr_ne _ _ _ _ (by decide)]
  by_cases ha : truthyOptS acct = true
  · rw [if_pos ha, getAttr_setAttr_ne _ _ _ _ (by decide), if_pos hq, getAttr_setAttr_self]
  · rw [if_neg ha, if_pos hq, getAttr_setAttr_self]

theorem create_base_withmpi (q acct : Option String) :
    getAttr (create_base_attrs q acct true) "withmpi" =
      some (PyVal.prim (PyPrim.bool true)) := by
  simp only [create_base_attrs]
  rw [getAttr_setAttr_ne _ _ _ _ (by decide)]
  by_cases ha : truthyOptS acct = true <;> by_cases hq : truthyOptS q = true <;>
    simp only [ha, hq, if_true, if_false, Bool.false_eq_true] <;>
    first
    | (rw [getAttr_setAttr_ne _ _ _ _ (by decide), getAttr_setAttr_ne _ _ _ _ (by decide)]
       rfl)
    | (rw [getAttr_setAttr_ne _ _ _ _ (by decide)]
       rfl)
    | rfl

theorem create_base_csc (q acct : Option String) (w : Bool)
    (ha : truthyOptS acct = true) :
    getAttr (create_base_attrs q acct w) "custom_scheduler_commands" =
      some (PyVal.prim (PyPrim.str ("#SBATCH --account=" ++ acct.getD ""))) := by
  simp only [create_base_attrs]
  rw [getAttr_setAttr_ne _ _ _ _ (by decide), if_pos ha, getAttr_setAttr_self]

theorem mpi_resources_value_ne_nil (det : Option Nat × Option Nat) :
    mpi_resources_value det ≠ [] := by
  unfold mpi_resources_value
  split_ifs <;> exact setAttr_ne_nil _ _ _

theorem create_opt_attrs_ok_elim (options : List OptionsDictNode)
    (q acct : Option String) (withmpi : Bool)
    (comps envc : List SchedComputer) (kws : List (String × PyVal))
    (attrs : List (String × PyVal))
    (hok : create_opt_attrs options q acct withmpi comps envc kws = Except.ok attrs) :
    ∃ res, res ≠ [] ∧
      mergeKwargs (setAttr (create_base_attrs q acct withmpi) "resources"
        (PyVal.dict res)) kws = Except.ok attrs := by
  unfold create_opt_attrs at hok
  by_cases hw : withmpi = true
  · rw [hw] at hok
    simp only [if_true] at hok
    cases hdet : determine_mpiprocs options q (if comps.isEmpty then envc else comps) with
    | error e => rw [hdet] at hok; simp [Except.map] at hok
    | ok det =>
      rw [hdet] at hok
      simp only [Except.map] at hok
      rw [hw]
      exact ⟨mpi_resources_value det, mpi_resources_value_ne_nil det, hok⟩
  · rw [Bool.not_eq_true] at hw
    rw [hw] at hok
    simp only [Bool.false_eq_true, if_false] at hok
    rw [hw]
    exact ⟨[("num_machines", PyPrim.int 1), ("tot_num_mpiprocs", PyPrim.int 1)],
      by simp, hok⟩

theorem created_resources_truthy (options : List OptionsDictNode)
    (q acct : Option String) (withmpi : Bool)
    (comps envc : List SchedComputer) (kws : List (String × PyVal))
    (attrs : List (String × PyVal))
    (hok : create_opt_attrs options q acct withmpi comps envc kws = Except.ok attrs)
    (hres : ∀ kv ∈ kws, kv.1 = "resources" → kv.2.isDict = true) :
    truthyAttr attrs "resources" = true := by
  obtain ⟨res, hne, hmerge⟩ := create_opt_attrs_ok_elim options q acct withmpi comps
    envc kws attrs hok
  obtain ⟨D, hD, hDne⟩ := mergeKwargs_resources kws _ attrs hres
    ⟨res, getAttr_setAttr_self _ _ _, hne⟩ hmerge
  unfold truthyAttr
  rw [hD]
  exact dict_truthy D hDne

theorem all_filters_foldr (kws : List (String × PyVal)) (p : OptFilter → Bool)
    (h : ∀ kv ∈ kws, (kwargFilters kv).all p = true) :
    (kws.foldr (fun kv acc => kwargFilters kv ++ acc) []).all p = true := by
  induction kws with
  | nil => rfl
  | cons kv rest ih =>
    rw [List.foldr_cons, List.all_append]
    rw [h kv (List.mem_cons_self _ _), ih (fun x hx => h x (List.mem_cons_of_mem _ hx))]
    rfl


theorem created_matches_filters (options : List OptionsDictNode)
    (q acct : Option String) (withmpi : Bool)
    (comps envc : List SchedComputer) (kws : List (String × PyVal))
    (attrs : List (String × PyVal))
    (hok : create_opt_attrs options q acct withmpi comps envc kws = Except.ok attrs)
    (hexp : ∀ kv ∈ kws, kv.1 ∉ explicit_argument_keywords)
    (hnodup : (kws.map Prod.fst).Nodup)
    (hsubnodup : ∀ k sub, (k, PyVal.dict sub) ∈ kws → (sub.map Prod.fst).Nodup)
    (hacct : truthyOptS acct = true →
      ∀ kv ∈ kws, kv.1 ≠ "custom_scheduler_commands") :
    (buildFilters q acct withmpi kws).all (matchesFilter attrs) = true := by
  obtain ⟨res, hresne, hmerge⟩ := create_opt_attrs_ok_elim options q acct withmpi comps
    envc kws attrs hok
  unfold buildFilters
  rw [List.all_append, List.all_append, List.all_append]
  have hg1 : (if truthyOptS q = true
      then [OptFilter.attrEq "queue_name" (PyVal.prim (PyPrim.str (q.getD "")))]
      else []).all (matchesFilter attrs) = true := by
    by_cases hq : truthyOptS q = true
    · rw [if_pos hq]
      have hqk : "queue_name" ∉ kws.map Prod.fst :=
        key_not_mem_of_not_explicit kws _ hexp (by simp [explicit_argument_keywords])
      have hlook : getAttr attrs "queue_name" =
          some (PyVal.prim (PyPrim.str (q.getD ""))) := by
        rw [mergeKwargs_preserve kws _ attrs _ hqk hmerge,
          getAttr_setAttr_ne _ _ _ _ (by decide), create_base_queue q acct withmpi hq]
      simp [matchesFilter, hlook]
    · rw [if_neg hq]
      rfl
  have hg2 : (if truthyOptS acct = true
      then [OptFilter.cscContains ("--account=" ++ acct.getD "")]
      else []).all (matchesFilter attrs) = true := by
    by_cases ha : truthyOptS acct = true
    · rw [if_pos ha]
      have hck : "custom_scheduler_commands" ∉ kws.map Prod.fst := by
        intro hmem
        rw [List.mem_map] at hmem
        obtain ⟨kv, hkv, hfst⟩ := hmem
        exact hacct ha kv hkv hfst
      have hlook : getAttr attrs "custom_scheduler_commands" =
          some (PyVal.prim (PyPrim.str ("#SBATCH --account=" ++ acct.getD ""))) := by
        rw [mergeKwargs_preserve kws _ attrs _ hck hmerge,
          getAttr_setAttr_ne _ _ _ _ (by decide), create_base_csc q acct withmpi ha]
      have hsplit : "#SBATCH --account=" ++ acct.getD "" =
          "#SBATCH " ++ ("--account=" ++ acct.getD "") := by
        rw [← String.append_assoc]
        congr 1
      simp only [List.all_cons, List.all_nil, Bool.and_true, matchesFilter, hlook]
      rw [hsplit]
      exact strContains_append _ _
    · rw [if_neg ha]
      rfl
  have hg3 : (if withmpi = true
      then [OptFilter.attrEq "withmpi" (PyVal.prim (PyPrim.bool true))]
      else []).all (matchesFilter attrs) = true := by
    by_cases hw : withmpi = true
    · rw [if_pos hw]
      subst hw
      have hwk : "withmpi" ∉ kws.map Prod.fst :=
        key_not_mem_of_not_explicit kws _ hexp (by simp [explicit_argument_keywords])
      have hlook : getAttr attrs "withmpi" = some (PyVal.prim (PyPrim.bool true)) := by
        rw [mergeKwargs_preserve kws _ attrs _ hwk hmerge,
          getAttr_setAttr_ne _ _ _ _ (by decide), create_base_withmpi q acct]
      simp [matchesFilter, hlook]
    · rw [if_neg hw]
      rfl
  have hg4 : (kws.foldr (fun kv acc => kwargFilters kv ++ acc) []).all
      (matchesFilter attrs) = true := by
    refine all_filters_foldr kws _ ?_
    intro kv hkv
    obtain ⟨k1, v1⟩ := kv
    cases v1 with
    | list l => rfl
    | prim p =>
      have hlook := mergeKwargs_lookup_nondict kws _ attrs k1 (PyVal.prim p) hnodup
        hkv (by simp [PyVal.isDict]) hmerge
      simp [kwargFilters, matchesFilter, hlook]
    | dict sub =>
      simp only [kwargFilters, List.all_eq_true]
      intro f hf
      rw [List.mem_map] at hf
      obtain ⟨sv, hsv, hfk⟩ := hf
      obtain ⟨D, hD, hDk⟩ := mergeKwargs_lookup_dict kws _ attrs k1 sub sv.1 sv.2
        hnodup hkv (hsubnodup k1 sub hkv) hsv hmerge
      rw [← hfk]
      simp [matchesFilter, hD, hDk]
  rw [hg1, hg2, hg3, hg4]
  rfl


theorem own_computer_queues_succ_idem :
    ∀ (cs : List SchedComputer) (qs : List String) (cs2 : List SchedComputer),
      own_computer_queues cs = (qs, cs2) → qs ≠ [] →
      own_computer_queues cs2 = (qs, cs2)
  | [], qs, cs2, h, hne => by
    unfold own_computer_queues at h
    injection h with h1 h2
    exact absurd h1.symm hne
  | c :: rest, qs, cs2, h, hne => by
    unfold own_computer_queues at h
    by_cases hcomp : c.compatible = true
    · rw [if_pos hcomp] at h
      by_cases hqe : (!c.queues.isEmpty) = true
      · rw [if_pos hqe] at h
        injection h with h1 h2
        subst h1
        subst h2
        unfold own_computer_queues
        rw [if_pos hcomp, if_pos hqe]
      · rw [if_neg hqe] at h
        rcases hrest : own_computer_queues rest with ⟨qs0, cs0⟩
        rw [hrest] at h
        simp only [Prod.mk.injEq] at h
        obtain ⟨h1, h2⟩ := h
        subst h1
        subst h2
        have ih := own_computer_queues_succ_idem rest qs0 cs0 hrest hne
        unfold own_computer_queues
        rw [if_pos hcomp, if_neg hqe]
        simp [ih]
    · rw [if_neg hcomp] at h
      exact own_computer_queues_succ_idem rest qs cs2 h hne

theorem own_computer_queues_fail :
    ∀ (cs cs2 : List SchedComputer),
      own_computer_queues cs = ([], cs2) →
      ∀ c ∈ cs2, c.compatible = true ∧ c.queues = []
  | [], cs2, h => by
    unfold own_computer_queues at h
    injection h with h1 h2
    subst h2
    intro c hc
    simp at hc
  | c :: rest, cs2, h => by
    unfold own_computer_queues at h
    by_cases hcomp : c.compatible = true
    · rw [if_pos hcomp] at h
      by_cases hqe : (!c.queues.isEmpty) = true
      · rw [if_pos hqe] at h
        injection h with h1 h2
        simp [h1] at hqe
      · rw [if_neg hqe] at h
        rcases hrest : own_computer_queues rest with ⟨qs0, cs0⟩
        rw [hrest] at h
        simp only [Prod.mk.injEq] at h
        obtain ⟨h1, h2⟩ := h
        subst h1
        subst h2
        intro x hx
        rcases List.mem_cons.mp hx with rfl | hx2
        · refine ⟨hcomp, ?_⟩
          simp only [Bool.not_eq_true, Bool.not_eq_true', Bool.not_eq_false] at hqe
          exact List.isEmpty_iff.mp hqe
        · exact own_computer_queues_fail rest cs0 hrest x hx2
    · rw [if_neg hcomp] at h
      exact own_computer_queues_fail rest cs2 h

theorem own_computer_queues_all_empty :
    ∀ (l : List SchedComputer),
      (∀ c ∈ l, c.compatible = true ∧ c.queues = []) →
      own_computer_queues l = ([], l)
  | [], _ => rfl
  | c :: rest, h => by
    obtain ⟨hcomp, hq⟩ := h c (List.mem_cons_self _ _)
    unfold own_computer_queues
    rw [if_pos hcomp, if_neg (by simp [hq])]
    simp [own_computer_queues_all_empty rest (fun x hx => h x (List.mem_cons_of_mem _ hx))]

theorem own_computer_queues_append :
    ∀ (l : List SchedComputer) (c0 : SchedComputer),
      (∀ c ∈ l, c.compatible = true ∧ c.queues = []) →
      c0.compatible = true → c0.queues ≠ [] →
      own_computer_queues (l ++ [c0]) = (c0.queues, l ++ [c0])
  | [], c0, _, hcomp, hne => by
    rw [List.nil_append]
    unfold own_computer_queues
    rw [if_pos hcomp, if_pos (by simp [hne])]
  | c :: rest, c0, h, hcomp, hne => by
    obtain ⟨hc, hq⟩ := h c (List.mem_cons_self _ _)
    rw [List.cons_append]
    unfold own_computer_queues
    rw [if_pos hc, if_neg (by simp [hq])]
    simp [own_computer_queues_append rest c0
      (fun x hx => h x (List.mem_cons_of_mem _ hx)) hcomp hne]

theorem db_computer_scan_some :
    ∀ (l : List SchedComputer) (c : SchedComputer),
      db_computer_scan l = Except.ok (some c) →
      c.compatible = true ∧ c.queues ≠ []
  | [], c, h => by simp [db_computer_scan] at h
  | c0 :: rest, c, h => by
    unfold db_computer_scan at h
    by_cases hcomp : c0.compatible = true
    · rw [if_neg (by simp [hcomp])] at h
      by_cases hqe : (!c0.queues.isEmpty) = true
      · rw [if_pos hqe] at h
        simp only [Except.ok.injEq, Option.some.injEq] at h
        subst h
        refine ⟨hcomp, ?_⟩
        simpa using hqe
      · rw [if_neg hqe] at h
        exact db_computer_scan_some rest c h
    · rw [Bool.not_eq_true] at hcomp
      rw [if_pos (by simp [hcomp])] at h
      exact absurd h (by simp)

theorem choose_queue_state (q : Option String) (qs : List String)
    (cs : List SchedComputer) (q2 : Option String) (cs2 : List SchedComputer)
    (h : choose_queue q qs cs = Except.ok (q2, cs2)) : cs2 = cs := by
  unfold choose_queue at h
  by_cases ht : truthyOptS q = true
  · rw [if_pos ht] at h
    by_cases hm : (q.getD "") ∈ qs
    · rw [if_pos hm] at h
      simp only [Except.ok.injEq, Prod.mk.injEq] at h
      exact h.2.symm
    · rw [if_neg hm] at h
      exact absurd h (by simp)
  · rw [if_neg ht] at h
    simp only [Except.ok.injEq, Prod.mk.injEq] at h
    exact h.2.symm

theorem choose_queue_again (q : Option String) (qs : List String)
    (cs : List SchedComputer) (q2 : Option String) (cs2 : List SchedComputer)
    (h : choose_queue q qs cs = Except.ok (q2, cs2)) (cs3 : List SchedComputer) :
    choose_queue q qs cs3 = Except.ok (q2, cs3) := by
  unfold choose_queue at h ⊢
  by_cases ht : truthyOptS q = true
  · rw [if_pos ht] at h ⊢
    by_cases hm : (q.getD "") ∈ qs
    · rw [if_pos hm] at h ⊢
      simp only [Except.ok.injEq, Prod.mk.injEq] at h
      rw [h.1]
    · rw [if_neg hm] at h
      exact absurd h (by simp)
  · rw [if_neg ht] at h ⊢
    simp only [Except.ok.injEq, Prod.mk.injEq] at h
    rw [h.1]

theorem choose_queue_fix (q : Option String) (qs : List String)
    (cs : List SchedComputer) (q2 : Option String) (cs2 : List SchedComputer)
    (h : choose_queue q qs cs = Except.ok (q2, cs2)) (hne : qs ≠ []) :
    choose_queue q2 qs cs2 = Except.ok (q2, cs2) := by
  unfold choose_queue at h ⊢
  by_cases ht : truthyOptS q = true
  · rw [if_pos ht] at h
    by_cases hm : (q.getD "") ∈ qs
    · rw [if_pos hm] at h
      simp only [Except.ok.injEq, Prod.mk.injEq] at h
      rw [← h.1]
      rw [if_pos ht, if_pos hm]
    · rw [if_neg hm] at h
      exact absurd h (by simp)
  · rw [if_neg ht] at h
    simp only [Except.ok.injEq, Prod.mk.injEq] at h
    cases hqs : qs with
    | nil => exact absurd hqs hne
    | cons a l =>
      rw [hqs] at h
      simp only [List.head?_cons] at h
      rw [← h.1]
      by_cases ha : truthyOptS (some a) = true
      · rw [if_pos ha]
        simp
      · rw [if_neg ha]
        simp

theorem resolve_queue_name_idem (env : AiidaEnv) (n : String)
    (cn q : Option String) (cs : List SchedComputer) (q2 : Option String)
    (cs2 : List SchedComputer)
    (h : resolve_queue_name env n cn q cs = Except.ok (q2, cs2)) :
    resolve_queue_name env n cn q cs2 = Except.ok (q2, cs2) ∧
    resolve_queue_name env n cn q2 cs2 = Except.ok (q2, cs2) := by
  simp only [resolve_queue_name] at h ⊢
  rcases hown : own_computer_queues cs with ⟨qs0, cs0⟩
  rw [hown] at h
  by_cases hqe : (!qs0.isEmpty) = true
  · rw [if_pos hqe] at h
    have hqsne : qs0 ≠ [] := by simpa using hqe
    have hstate : cs2 = cs0 := choose_queue_state q qs0 cs0 q2 cs2 h
    subst hstate
    have hown2 : own_computer_queues cs2 = (qs0, cs2) :=
      own_computer_queues_succ_idem cs qs0 cs2 hown hqsne
    constructor
    · simp only [hown2]
      rw [if_pos hqe]
      exact h
    · simp only [hown2]
      rw [if_pos hqe]
      exact choose_queue_fix q qs0 cs2 q2 cs2 h hqsne
  · rw [if_neg hqe] at h
    have hqs0 : qs0 = [] := by simpa using hqe
    subst hqs0
    by_cases hdb : (find_computers_by_pattern env n cn).isEmpty = true
    · rw [if_pos hdb] at h
      exact absurd h (by simp)
    · rw [if_neg hdb] at h
      cases hscan : db_computer_scan (find_computers_by_pattern env n cn) with
      | error e =>
        rw [hscan] at h
        exact absurd h (by simp)
      | ok oc =>
        cases oc with
        | none =>
          rw [hscan] at h
          exact absurd h (by simp)
        | some c =>
          rw [hscan] at h
          have hstate : cs2 = cs0 ++ [c] := choose_queue_state q c.queues _ q2 cs2 h
          subst hstate
          obtain ⟨hccomp, hcq⟩ := db_computer_scan_some _ c hscan
          have hfailprops := own_computer_queues_fail cs cs0 hown
          have hown2 : own_computer_queues (cs0 ++ [c]) = (c.queues, cs0 ++ [c]) :=
            own_computer_queues_append cs0 c hfailprops hccomp hcq
          constructor
          · simp only [hown2]
            rw [if_pos (show (!c.queues.isEmpty) = true by simpa using hcq)]
            exact h
          · simp only [hown2]
            rw [if_pos (show (!c.queues.isEmpty) = true by simpa using hcq)]
            exact choose_queue_fix q c.queues _ q2 _ h hcq

theorem resolve_mandatory_fixed (env : AiidaEnv) (n : String)
    (cn acct : Option String) :
    ∀ (l : List String) (q : Option String) (cs : List SchedComputer)
      (out : Option String × List SchedComputer),
      resolve_queue_name env n cn q cs = Except.ok (q, cs) →
      resolve_mandatory env n cn acct l q cs = Except.ok out → out = (q, cs)
  | [], q, cs, out, _, h => by
    unfold resolve_mandatory at h
    simp only [Except.ok.injEq] at h
    exact h.symm
  | key :: rest, q, cs, out, hfix, h => by
    unfold resolve_mandatory at h
    by_cases hq : key = "queue_name"
    · rw [if_pos hq] at h
      rw [hfix] at h
      exact resolve_mandatory_fixed env n cn acct rest q cs out hfix h
    · rw [if_neg hq] at h
      by_cases ha : key = "account"
      · rw [if_pos ha] at h
        by_cases hacct : truthyOptS acct = true
        · rw [if_pos hacct] at h
          exact resolve_mandatory_fixed env n cn acct rest q cs out hfix h
        · rw [if_neg hacct] at h
          exact absurd h (by simp)
      · rw [if_neg ha] at h
        exact resolve_mandatory_fixed env n cn acct rest q cs out hfix h

theorem resolve_mandatory_idem (env : AiidaEnv) (n : String)
    (cn acct : Option String) :
    ∀ (l : List String) (q0 : Option String) (cs : List SchedComputer)
      (qf : Option String) (csf : List SchedComputer),
      resolve_mandatory env n cn acct l q0 cs = Except.ok (qf, csf) →
      resolve_mandatory env n cn acct l q0 csf = Except.ok (qf, csf)
  | [], q0, cs, qf, csf, h => by
    unfold resolve_mandatory at h ⊢
    simp only [Except.ok.injEq, Prod.mk.injEq] at h
    rw [h.1]
  | key :: rest, q0, cs, qf, csf, h => by
    unfold resolve_mandatory at h ⊢
    by_cases hq : key = "queue_name"
    · rw [if_pos hq] at h ⊢
      cases hr : resolve_queue_name env n cn q0 cs with
      | error e =>
        rw [hr] at h
        exact absurd h (by simp)
      | ok out =>
        obtain ⟨q1, cs1⟩ := out
        rw [hr] at h
        obtain ⟨hre1, hre2⟩ := resolve_queue_name_idem env n cn q0 cs q1 cs1 hr
        have hout := resolve_mandatory_fixed env n cn acct rest q1 cs1 (qf, csf) hre2 h
        injection hout with hq1 hcs1
        subst hq1
        subst hcs1
        rw [hre1]
        exact h
    · rw [if_neg hq] at h ⊢
      by_cases ha : key = "account"
      · rw [if_pos ha] at h ⊢
        by_cases hacct : truthyOptS acct = true
        · rw [if_pos hacct] at h ⊢
          exact resolve_mandatory_idem env n cn acct rest q0 cs qf csf h
        · rw [if_neg hacct] at h
          exact absurd h (by simp)
      · rw [if_neg ha] at h ⊢
        exact resolve_mandatory_idem env n cn acct rest q0 cs qf csf h

/-- C2 (amended). With `store_if_not_exist=True`, repeating a `get_options`
call with identical arguments returns the same result and leaves the store
and computer list unchanged — the second call loads what the first stored —
provided the arguments do not combine a truthy `account` with a
`custom_scheduler_commands` keyword argument (the counterexample case, where
the keyword overwrites the account flags that the second call's query
filters on). -/
theorem get_options_idempotent (env : AiidaEnv) (cfg : OptionsConfigState)
    (store : List OptionsDictNode) (computers : List SchedComputer) (args : OptArgs)
    (r s1 : List OptionsDictNode) (c1 : List SchedComputer)
    (hstore : args.store_if_not_exist = true)
    (hnodup : ((validateKwargs args.kwargs).map Prod.fst).Nodup)
    (hsubnodup : ∀ k sub, (k, PyVal.dict sub) ∈ validateKwargs args.kwargs →
      (sub.map Prod.fst).Nodup)
    (hacct : truthyOptS args.account = true →
      ∀ kv ∈ validateKwargs args.kwargs, kv.1 ≠ "custom_scheduler_commands")
    (h1 : get_options env cfg store computers args = Except.ok (r, s1, c1)) :
    get_options env cfg s1 c1 args = Except.ok (r, s1, c1) := by
  unfold get_options at h1 ⊢
  by_cases hinit : cfg.is_initialized = true
  case neg =>
    rw [Bool.not_eq_true] at hinit
    rw [hinit] at h1 ⊢
    simp only [Bool.not_false, if_true, Except.ok.injEq, Prod.mk.injEq] at h1
    obtain ⟨h1r, h1s, h1c⟩ := h1
    subst h1r
    subst h1s
    subst h1c
    simp
  case pos =>
    rw [hinit] at h1 ⊢
    simp only [Bool.not_true, Bool.false_eq_true, if_false] at h1 ⊢
    cases hres : resolve_mandatory env cfg.name args.computer_name args.account
        cfg.mandatory args.queue_name computers with
    | error e =>
      rw [hres] at h1
      exact absurd h1 (by simp)
    | ok out =>
      obtain ⟨q, cs2⟩ := out
      simp only [hres] at h1
      have hres2 := resolve_mandatory_idem env cfg.name args.computer_name
        args.account cfg.mandatory args.queue_name computers q cs2 hres
      by_cases hempty : (store.filter (matchesFilters
          (buildFilters q args.account args.withmpi
            (validateKwargs args.kwargs)))).isEmpty = true
      · -- call 1 creates and stores a node
        rw [if_pos hempty] at h1
        cases hca : create_opt_attrs store q args.account args.withmpi cs2
            (env.get_computers cfg.name) (validateKwargs args.kwargs) with
        | error e =>
          rw [hca] at h1
          exact absurd h1 (by simp)
        | ok attrs =>
          simp only [hca, hstore, if_true] at h1
          have htruthy : truthyAttr attrs "resources" = true :=
            created_resources_truthy store q args.account args.withmpi cs2 _ _ attrs
              hca (validateKwargs_resources_dict args.kwargs)
          rw [if_pos htruthy] at h1
          simp only [Except.ok.injEq, Prod.mk.injEq] at h1
          obtain ⟨h1r, h1s, h1c⟩ := h1
          subst h1r
          subst h1s
          subst h1c
          simp only [hres2]
          have hfe : store.filter (matchesFilters
              (buildFilters q args.account args.withmpi
                (validateKwargs args.kwargs))) = [] := by
            rw [← List.isEmpty_iff]
            exact hempty
          have hmatch : matchesFilters
              (buildFilters q args.account args.withmpi (validateKwargs args.kwargs))
              (⟨fresh_node_id store, opt_label cfg.name q args.account args.withmpi, attrs, true⟩ : OptionsDictNode) = true := by
            show (buildFilters q args.account args.withmpi
              (validateKwargs args.kwargs)).all (matchesFilter attrs) = true
            exact created_matches_filters store q args.account args.withmpi cs2 _ _
              attrs hca (validateKwargs_not_explicit args.kwargs) hnodup hsubnodup hacct
          have hfilter2 : (store ++ [(⟨fresh_node_id store, opt_label cfg.name q args.account args.withmpi, attrs, true⟩ : OptionsDictNode)]).filter (matchesFilters
                (buildFilters q args.account args.withmpi
                  (validateKwargs args.kwargs))) = [(⟨fresh_node_id store, opt_label cfg.name q args.account args.withmpi, attrs, true⟩ : OptionsDictNode)] := by
            rw [List.filter_append, hfe, List.nil_append]
            simp [List.filter, hmatch]
          rw [hfilter2]
          simp only [List.isEmpty_cons, Bool.false_eq_true, if_false]
          have hvalid : List.filter (fun n => truthyAttr n.attrs "resources")
              [(⟨fresh_node_id store, opt_label cfg.name q args.account args.withmpi, attrs, true⟩ : OptionsDictNode)] = [(⟨fresh_node_id store, opt_label cfg.name q args.account args.withmpi, attrs, true⟩ : OptionsDictNode)] := by
            simp only [List.filter]
            rw [show truthyAttr ((⟨fresh_node_id store, opt_label cfg.name q args.account args.withmpi, attrs, true⟩ : OptionsDictNode)).attrs "resources" = true from htruthy]
          rw [hvalid]
          rw [if_pos rfl]
      · -- call 1 loads
        rw [if_neg hempty] at h1
        by_cases hlen : ((store.filter (matchesFilters
            (buildFilters q args.account args.withmpi
              (validateKwargs args.kwargs)))).filter
              (fun n => truthyAttr n.attrs "resources")).length =
            (store.filter (matchesFilters
              (buildFilters q args.account args.withmpi
                (validateKwargs args.kwargs)))).length
        · rw [if_pos hlen] at h1
          simp only [Except.ok.injEq, Prod.mk.injEq] at h1
          obtain ⟨h1r, h1s, h1c⟩ := h1
          subst h1r
          subst h1s
          subst h1c
          simp only [hres2]
          rw [if_neg hempty, if_pos hlen]
        · rw [if_neg hlen] at h1
          simp only [Except.ok.injEq, Prod.mk.injEq] at h1
          obtain ⟨h1r, h1s, h1c⟩ := h1
          subst h1r
          subst h1s
          subst h1c
          simp only [hres2]
          rw [if_neg hempty, if_neg hlen]

/-- Counterexample to C2 as stated: with a truthy `account` and a
`custom_scheduler_commands` keyword argument, the record created and stored
by the first call does not satisfy the second call's
`custom_scheduler_commands ilike '%--account=...%'` filter (the keyword
overwrote the account flags), so the second call creates and stores a
duplicate instead of loading the stored record: the store grows from one
record to two. -/
theorem get_options_idempotent_counterexample :
    cscClashStore1.length = 1 ∧ cscClashStore2.length = 2 ∧
    cscClashStore2 ≠ cscClashStore1 := by
  refine ⟨rfl, rfl, by decide⟩

/-- Witness for C2 (amended) at a concrete input. -/
theorem get_options_idempotent_witness :
    get_options emptyEnv plainConfig
      (match get_options emptyEnv plainConfig [] [] benignArgs with
       | Except.ok (_, s, _) => s
       | Except.error _ => [])
      (match get_options emptyEnv plainConfig [] [] benignArgs with
       | Except.ok (_, _, c) => c
       | Except.error _ => []) benignArgs =
    Except.ok
      ((match get_options emptyEnv plainConfig [] [] benignArgs with
        | Except.ok (r, _, _) => r
        | Except.error _ => []),
       (match get_options emptyEnv plainConfig [] [] benignArgs with
        | Except.ok (_, s, _) => s
        | Except.error _ => []),
       (match get_options emptyEnv plainConfig [] [] benignArgs with
        | Except.ok (_, _, c) => c
        | Except.error _ => [])) :=
  get_options_idempotent emptyEnv plainConfig [] [] benignArgs _ _ _
    rfl (by decide)
    (by
      intro k sub hmem
      rw [show validateKwargs benignArgs.kwargs =
        [("max_memory_kb", PyVal.prim (PyPrim.int 5))] from rfl] at hmem
      simp at hmem)
    (by
      intro _ kv hkv
      rw [show validateKwargs benignArgs.kwargs =
        [("max_memory_kb", PyVal.prim (PyPrim.int 5))] from rfl] at hkv
      have hk : kv = ("max_memory_kb", PyVal.prim (PyPrim.int 5)) := by
        simpa using hkv
      rw [hk]
      decide)
    rfl
end AiidaJutools
